import Mathlib

/-!
# go-vhd: geometry, header codec, checksum and sparse-disk builder

A shallow embedding of `vhd/vhd.go` and the properties of its specification.

Conventions of the embedding.

* Go unsigned integers are natural numbers; a conversion to a narrower type is written as
  the explicit reduction modulo `2 ^ w` (`uint8`, `uint16`, `uint32`).
* A Go `float64` that is finite is modelled by the rational number it denotes. Every
  arithmetic operation is the exact rational operation followed by `roundF64`, rounding to
  the nearest number with a 53 bit significand, ties to even. The exponent range is not
  bounded in the model; every value of the program is zero or lies between `2 ^ (-10)` and
  `2 ^ 64`, far inside the range of normal binary64 numbers, so no overflow, underflow,
  infinity or NaN can arise.
* A function that can panic returns `Option`, `none` being the panic.
* File output is the list of bytes written, in order.
-/

/-! ## Definitions -/

/-! ### float64 arithmetic -/

/-- Rounding of a rational to the nearest integer, ties going to the even integer. -/
def roundHalfEven (t : ℚ) : ℤ :=
  let f := ⌊t⌋
  let d := t - f
  if d < 1 / 2 then f
  else if 1 / 2 < d then f + 1
  else if f % 2 = 0 then f else f + 1

/-- Rounding of a real value to binary64: with `e` the binary exponent of `x`
(`2 ^ e ≤ |x| < 2 ^ (e + 1)`), the spacing of binary64 numbers around `x` is
`2 ^ (e - 52)` and `x` is rounded to the nearest multiple of it, ties to even. -/
def roundF64 (x : ℚ) : ℚ :=
  if x = 0 then 0
  else
    let e := Int.log 2 |x|
    let ulp : ℚ := (2 : ℚ) ^ (e - 52)
    (roundHalfEven (x / ulp) : ℚ) * ulp

/-- Finite values of the Go type float64. -/
abbrev Float64 := ℚ

/-- Conversion float64(n) of an unsigned integer. -/
def float64OfUint64 (n : ℕ) : Float64 := roundF64 (n : ℚ)

/-- Quotient a / b of float64 values. -/
def fdiv (a b : Float64) : Float64 := roundF64 (a / b)

/-- Sum a + b of float64 values. -/
def fadd (a b : Float64) : Float64 := roundF64 (a + b)

/-- Product a * b of float64 values. -/
def fmul (a b : Float64) : Float64 := roundF64 (a * b)

/-- Go math.Floor; the floor of a binary64 number is a binary64 number, so there is no
rounding. -/
def mathFloor (x : Float64) : Float64 := ((⌊x⌋ : ℤ) : ℚ)

/-- Conversion uint(x) or uint64(x) of a non-negative float64: the fraction is discarded. -/
def uintOfFloat64 (x : Float64) : ℕ := ⌊x⌋₊

/-! ### calculateCHS -/

/-- The float64 locals of calculateCHS that its branches assign. -/
structure CHSVars where
  sectorsPerTrack : Float64
  heads : Float64
  cylinderTimesHeads : Float64

/-- The if/else block of calculateCHS (source lines 76 to 97), run on the clamped
totalSectors. -/
def calculateCHS.vars (totalSectors : Float64) : CHSVars :=
  if totalSectors ≥ 65535 * 16 * 63 then
    { sectorsPerTrack := 255, heads := 16,
      cylinderTimesHeads := mathFloor (fdiv totalSectors 255) }
  else
    let v : CHSVars :=
      { sectorsPerTrack := 17, heads := 0,
        cylinderTimesHeads := mathFloor (fdiv totalSectors 17) }
    let v : CHSVars := { v with heads := mathFloor (fdiv (fadd v.cylinderTimesHeads 1023) 1024) }
    let v : CHSVars := if v.heads < 4 then { v with heads := 4 } else v
    let v : CHSVars :=
      if v.cylinderTimesHeads ≥ fmul v.heads 1024 ∨ v.heads > 16 then
        { sectorsPerTrack := 31, heads := 16,
          cylinderTimesHeads := mathFloor (fdiv totalSectors 31) }
      else v
    let v : CHSVars :=
      if v.cylinderTimesHeads ≥ fmul v.heads 1024 then
        { sectorsPerTrack := 63, heads := 16,
          cylinderTimesHeads := mathFloor (fdiv totalSectors 63) }
      else v
    v

/-- Source function calculateCHS; the result slice is [cylinders, heads, sectorsPerTrack]. -/
def calculateCHS (ts : ℕ) : List ℕ :=
  let totalSectors : Float64 := float64OfUint64 ts
  let totalSectors : Float64 :=
    if totalSectors > 65535 * 16 * 255 then 65535 * 16 * 255 else totalSectors
  let v := calculateCHS.vars totalSectors
  let cylinders : Float64 := fdiv v.cylinderTimesHeads v.heads
  [uintOfFloat64 cylinders, uintOfFloat64 v.heads, uintOfFloat64 v.sectorsPerTrack]

/-- The integer reference algorithm of the geometry calculator, written from the text of the
specification (section 4.1): all divisions are floor divisions of natural numbers. The
triple r is (sectorsPerTrack, heads, cylinderTimesHeads). -/
def chsReference (ts : ℕ) : List ℕ :=
  let s := min ts (65535 * 16 * 255)
  if s ≥ 65535 * 16 * 63 then
    let spt := 255
    let heads := 16
    let cth := s / 255
    [cth / heads, heads, spt]
  else
    let spt := 17
    let cth := s / 17
    let heads := max 4 ((cth + 1023) / 1024)
    let r : ℕ × ℕ × ℕ :=
      if cth ≥ heads * 1024 ∨ heads > 16 then (31, 16, s / 31) else (spt, heads, cth)
    let r : ℕ × ℕ × ℕ := if r.2.2 ≥ r.2.1 * 1024 then (63, 16, s / 63) else r
    [r.2.2 / r.2.1, r.2.1, r.1]

/-- The locals (sectorsPerTrack, heads, cylinderTimesHeads) of calculateCHS in integer
arithmetic, for a clamped sector count s; an auxiliary of the proofs. -/
def chsInt (s : ℕ) : ℕ × ℕ × ℕ :=
  if 65535 * 16 * 63 ≤ s then (255, 16, s / 255)
  else
    let cth := s / 17
    let heads := max 4 ((cth + 1023) / 1024)
    let r : ℕ × ℕ × ℕ :=
      if heads * 1024 ≤ cth ∨ 16 < heads then (31, 16, s / 31) else (17, heads, cth)
    if r.2.1 * 1024 ≤ r.2.2 then (63, 16, s / 63) else r

/-- The float64 locals holding the integers of a triple. -/
def CHSVars.ofNat (r : ℕ × ℕ × ℕ) : CHSVars :=
  { sectorsPerTrack := (r.1 : ℚ), heads := (r.2.1 : ℚ), cylinderTimesHeads := (r.2.2 : ℚ) }

/-! ### Bytes, arrays and byte order -/

/-- A Go byte (uint8). -/
abbrev Byte := Fin 256

/-- A Go fixed-size byte array, [n]byte. -/
abbrev ByteArr (n : ℕ) := { l : List Byte // l.length = n }

/-- The zero value of [n]byte. -/
def ByteArr.zero (n : ℕ) : ByteArr n := ⟨List.replicate n 0, List.length_replicate n 0⟩

/-- Go builtin copy(dst, src) on a destination array slice: the first min(len dst, len src)
bytes of dst are overwritten, the rest are kept. -/
def copyInto {n : ℕ} (dst : ByteArr n) (src : List Byte) : ByteArr n :=
  ⟨src.take n ++ dst.val.drop (src.take n).length, by
    have := dst.property
    simp only [List.length_append, List.length_drop, List.length_take]
    omega⟩

/-- Assignment to one element of an array, a[i] = v (i is always in range where used). -/
def ByteArr.set {n : ℕ} (a : ByteArr n) (i : ℕ) (v : Byte) : ByteArr n :=
  ⟨a.val.set i v, by rw [List.length_set]; exact a.property⟩

/-- Conversion uint8(x) of an unsigned integer: the low 8 bits. -/
def uint8 (x : ℕ) : Byte := ⟨x % 256, Nat.mod_lt _ (by norm_num)⟩

/-- Conversion uint16(x) of an unsigned integer: the low 16 bits. -/
def uint16 (x : ℕ) : ℕ := x % 2 ^ 16

/-- Conversion uint32(x) of an unsigned integer, and the result of uint32 arithmetic: the
low 32 bits. -/
def uint32 (x : ℕ) : ℕ := x % 2 ^ 32

/-- Conversion uint32(x) of a signed integer: the value modulo 2^32. -/
def uint32OfInt (x : ℤ) : ℕ := (x % 2 ^ 32).toNat

/-- The bytes written by binary.BigEndian.PutUint16. -/
def beBytes16 (v : ℕ) : List Byte := [uint8 (v / 2 ^ 8), uint8 v]

/-- The bytes written by binary.BigEndian.PutUint32. -/
def beBytes32 (v : ℕ) : List Byte :=
  [uint8 (v / 2 ^ 24), uint8 (v / 2 ^ 16), uint8 (v / 2 ^ 8), uint8 v]

/-- The bytes written by binary.BigEndian.PutUint64. -/
def beBytes64 (v : ℕ) : List Byte :=
  [uint8 (v / 2 ^ 56), uint8 (v / 2 ^ 48), uint8 (v / 2 ^ 40), uint8 (v / 2 ^ 32),
   uint8 (v / 2 ^ 24), uint8 (v / 2 ^ 16), uint8 (v / 2 ^ 8), uint8 v]

/-- Big-endian value of a byte sequence (binary.BigEndian.Uint16/Uint32/Uint64 on 2/4/8 bytes). -/
def beValue (b : List Byte) : ℕ := b.foldl (fun acc x => acc * 256 + x.val) 0

/-- Value of one hexadecimal digit, as in Go encoding/hex; none for any other character. -/
def fromHexChar (c : Char) : Option ℕ :=
  if '0' ≤ c ∧ c ≤ '9' then some (c.toNat - '0'.toNat)
  else if 'a' ≤ c ∧ c ≤ 'f' then some (c.toNat - 'a'.toNat + 10)
  else if 'A' ≤ c ∧ c ≤ 'F' then some (c.toNat - 'A'.toNat + 10)
  else none

/-- Go hex.DecodeString on the characters of the string; none is the error result. -/
def hexDecode : List Char → Option (List Byte)
  | [] => some []
  | [_] => none
  | a :: b :: rest =>
    match fromHexChar a, fromHexChar b, hexDecode rest with
    | some x, some y, some r => some (uint8 (x * 16 + y) :: r)
    | _, _, _ => none

/-- Hex of "conectix". -/
def VHD_COOKIE : String := "636f6e6563746978"

/-- Hex of "cxsparse". -/
def VHD_DYN_COOKIE : String := "6378737061727365"

/-- Hex of "go-vhd". -/
def VHD_CREATOR_APP : String := "676f2d766864"

/-- Hex of "Wi2k". -/
def VHD_CREATOR_HOST_OS : String := "5769326B"

/-- Block size, 2 MiB. -/
def VHD_BLOCK_SIZE : ℕ := 2 * 1024 * 1024

/-- Size of the serialized VHDHeader. -/
def VHD_HEADER_SIZE : ℕ := 512

/-- Size of the serialized VHDExtraHeader. -/
def VHD_EXTRA_HEADER_SIZE : ℕ := 1024

/-- Source function hexToField: decode the hex string (a decoding error panics: none) and copy
the bytes into the field. -/
def hexToField {n : ℕ} (hexs : String) (field : ByteArr n) : Option (ByteArr n) :=
  match hexDecode hexs.toList with
  | none => none
  | some h => some (copyInto field h)

/-! ### The two header structures -/

structure VHDExtraHeader where
  Cookie : ByteArr 8
  DataOffset : ByteArr 8
  TableOffset : ByteArr 8
  HeaderVersion : ByteArr 4
  MaxTableEntries : ByteArr 4
  BlockSize : ByteArr 4
  Checksum : ByteArr 4
  ParentUUID : ByteArr 16
  ParentTimestamp : ByteArr 4
  Reserved : ByteArr 4
  ParentUnicodeName : ByteArr 512
  ParentLocatorEntry1 : ByteArr 24
  ParentLocatorEntry2 : ByteArr 24
  ParentLocatorEntry3 : ByteArr 24
  ParentLocatorEntry4 : ByteArr 24
  ParentLocatorEntry5 : ByteArr 24
  ParentLocatorEntry6 : ByteArr 24
  ParentLocatorEntry7 : ByteArr 24
  ParentLocatorEntry8 : ByteArr 24
  Reserved2 : ByteArr 256

structure VHDHeader where
  Cookie : ByteArr 8
  Features : ByteArr 4
  FileFormatVersion : ByteArr 4
  DataOffset : ByteArr 8
  Timestamp : ByteArr 4
  CreatorApplication : ByteArr 4
  CreatorVersion : ByteArr 4
  CreatorHostOS : ByteArr 4
  OriginalSize : ByteArr 8
  CurrentSize : ByteArr 8
  DiskGeometry : ByteArr 4
  DiskType : ByteArr 4
  Checksum : ByteArr 4
  UniqueId : ByteArr 16
  SavedState : ByteArr 1
  Reserved : ByteArr 427

/-- Zero value VHDExtraHeader{}. -/
def VHDExtraHeader.zero : VHDExtraHeader :=
  { Cookie := ByteArr.zero 8, DataOffset := ByteArr.zero 8, TableOffset := ByteArr.zero 8,
    HeaderVersion := ByteArr.zero 4, MaxTableEntries := ByteArr.zero 4,
    BlockSize := ByteArr.zero 4, Checksum := ByteArr.zero 4, ParentUUID := ByteArr.zero 16,
    ParentTimestamp := ByteArr.zero 4, Reserved := ByteArr.zero 4,
    ParentUnicodeName := ByteArr.zero 512,
    ParentLocatorEntry1 := ByteArr.zero 24, ParentLocatorEntry2 := ByteArr.zero 24,
    ParentLocatorEntry3 := ByteArr.zero 24, ParentLocatorEntry4 := ByteArr.zero 24,
    ParentLocatorEntry5 := ByteArr.zero 24, ParentLocatorEntry6 := ByteArr.zero 24,
    ParentLocatorEntry7 := ByteArr.zero 24, ParentLocatorEntry8 := ByteArr.zero 24,
    Reserved2 := ByteArr.zero 256 }

/-- Zero value VHDHeader{}. -/
def VHDHeader.zero : VHDHeader :=
  { Cookie := ByteArr.zero 8, Features := ByteArr.zero 4, FileFormatVersion := ByteArr.zero 4,
    DataOffset := ByteArr.zero 8, Timestamp := ByteArr.zero 4,
    CreatorApplication := ByteArr.zero 4, CreatorVersion := ByteArr.zero 4,
    CreatorHostOS := ByteArr.zero 4, OriginalSize := ByteArr.zero 8,
    CurrentSize := ByteArr.zero 8, DiskGeometry := ByteArr.zero 4, DiskType := ByteArr.zero 4,
    Checksum := ByteArr.zero 4, UniqueId := ByteArr.zero 16, SavedState := ByteArr.zero 1,
    Reserved := ByteArr.zero 427 }

/-- The bytes binary.Write(w, binary.BigEndian, h) produces for a VHDExtraHeader: the fields
in declaration order. -/
def VHDExtraHeader.encode (h : VHDExtraHeader) : List Byte :=
  h.Cookie.val ++ (h.DataOffset.val ++ (h.TableOffset.val ++ (h.HeaderVersion.val ++
  (h.MaxTableEntries.val ++ (h.BlockSize.val ++ (h.Checksum.val ++ (h.ParentUUID.val ++
  (h.ParentTimestamp.val ++ (h.Reserved.val ++ (h.ParentUnicodeName.val ++
  (h.ParentLocatorEntry1.val ++ (h.ParentLocatorEntry2.val ++ (h.ParentLocatorEntry3.val ++
  (h.ParentLocatorEntry4.val ++ (h.ParentLocatorEntry5.val ++ (h.ParentLocatorEntry6.val ++
  (h.ParentLocatorEntry7.val ++ (h.ParentLocatorEntry8.val ++ h.Reserved2.val))))))))))))))))))

/-- The bytes binary.Write(w, binary.BigEndian, h) produces for a VHDHeader. -/
def VHDHeader.encode (h : VHDHeader) : List Byte :=
  h.Cookie.val ++ (h.Features.val ++ (h.FileFormatVersion.val ++ (h.DataOffset.val ++
  (h.Timestamp.val ++ (h.CreatorApplication.val ++ (h.CreatorVersion.val ++
  (h.CreatorHostOS.val ++ (h.OriginalSize.val ++ (h.CurrentSize.val ++ (h.DiskGeometry.val ++
  (h.DiskType.val ++ (h.Checksum.val ++ (h.UniqueId.val ++ (h.SavedState.val ++
  h.Reserved.val))))))))))))))

/-- Decoder step of binary.Read for a field of type [n]byte: the next n bytes of the buffer
become the array and the buffer advances by n (bytes missing from a short buffer would read
as zero; the decoders below only run it on buffers that are long enough). -/
def readArr (n : ℕ) (buf : List Byte) : ByteArr n × List Byte :=
  (⟨List.ofFn (fun i : Fin n => buf.getD i.val 0), List.length_ofFn _⟩, buf.drop n)

/-- Decoding binary.Read(bytes.NewBuffer(buf), binary.BigEndian, &header) into a zero-valued
VHDHeader: with fewer than 512 bytes available the read fails and, the error being ignored
by the callers, the header keeps its zero value; otherwise the fields are filled in
declaration order from the first 512 bytes. -/
def decodeVHDHeader (buf : List Byte) : VHDHeader :=
  if buf.length < VHD_HEADER_SIZE then VHDHeader.zero
  else
    let r1 := readArr 8 buf
    let r2 := readArr 4 r1.2
    let r3 := readArr 4 r2.2
    let r4 := readArr 8 r3.2
    let r5 := readArr 4 r4.2
    let r6 := readArr 4 r5.2
    let r7 := readArr 4 r6.2
    let r8 := readArr 4 r7.2
    let r9 := readArr 8 r8.2
    let r10 := readArr 8 r9.2
    let r11 := readArr 4 r10.2
    let r12 := readArr 4 r11.2
    let r13 := readArr 4 r12.2
    let r14 := readArr 16 r13.2
    let r15 := readArr 1 r14.2
    let r16 := readArr 427 r15.2
    { Cookie := r1.1, Features := r2.1, FileFormatVersion := r3.1, DataOffset := r4.1,
      Timestamp := r5.1, CreatorApplication := r6.1, CreatorVersion := r7.1,
      CreatorHostOS := r8.1, OriginalSize := r9.1, CurrentSize := r10.1,
      DiskGeometry := r11.1, DiskType := r12.1, Checksum := r13.1, UniqueId := r14.1,
      SavedState := r15.1, Reserved := r16.1 }

/-- Decoding binary.Read into a zero-valued VHDExtraHeader (1024 bytes), as in
readVHDExtraHeader. -/
def decodeVHDExtraHeader (buf : List Byte) : VHDExtraHeader :=
  if buf.length < VHD_EXTRA_HEADER_SIZE then VHDExtraHeader.zero
  else
    let r1 := readArr 8 buf
    let r2 := readArr 8 r1.2
    let r3 := readArr 8 r2.2
    let r4 := readArr 4 r3.2
    let r5 := readArr 4 r4.2
    let r6 := readArr 4 r5.2
    let r7 := readArr 4 r6.2
    let r8 := readArr 16 r7.2
    let r9 := readArr 4 r8.2
    let r10 := readArr 4 r9.2
    let r11 := readArr 512 r10.2
    let r12 := readArr 24 r11.2
    let r13 := readArr 24 r12.2
    let r14 := readArr 24 r13.2
    let r15 := readArr 24 r14.2
    let r16 := readArr 24 r15.2
    let r17 := readArr 24 r16.2
    let r18 := readArr 24 r17.2
    let r19 := readArr 24 r18.2
    let r20 := readArr 256 r19.2
    { Cookie := r1.1, DataOffset := r2.1, TableOffset := r3.1, HeaderVersion := r4.1,
      MaxTableEntries := r5.1, BlockSize := r6.1, Checksum := r7.1, ParentUUID := r8.1,
      ParentTimestamp := r9.1, Reserved := r10.1, ParentUnicodeName := r11.1,
      ParentLocatorEntry1 := r12.1, ParentLocatorEntry2 := r13.1,
      ParentLocatorEntry3 := r14.1, ParentLocatorEntry4 := r15.1,
      ParentLocatorEntry5 := r16.1, ParentLocatorEntry6 := r17.1,
      ParentLocatorEntry7 := r18.1, ParentLocatorEntry8 := r19.1, Reserved2 := r20.1 }

/-- The loop "for counter < n: checksum += int(bb[counter])" with k iterations left; an index
outside bb panics (none). -/
def checksumLoop (bb : List Byte) : ℕ → ℕ → ℤ → Option ℤ
  | 0, _, checksum => some checksum
  | k + 1, counter, checksum =>
    match bb.get? counter with
    | none => none
    | some b => checksumLoop bb k (counter + 1) (checksum + (b.val : ℤ))

/-- Source method (h *VHDHeader) addChecksum; the Go complement of an int, written ^checksum,
is -checksum - 1. -/
def VHDHeader.addChecksum (h : VHDHeader) : Option VHDHeader :=
  let bb := h.encode
  match checksumLoop bb VHD_HEADER_SIZE 0 0 with
  | none => none
  | some checksum =>
    some { h with Checksum := copyInto h.Checksum (beBytes32 (uint32OfInt (-checksum - 1))) }

/-- Source method (h *VHDExtraHeader) addChecksum. -/
def VHDExtraHeader.addChecksum (h : VHDExtraHeader) : Option VHDExtraHeader :=
  let bb := h.encode
  match checksumLoop bb VHD_EXTRA_HEADER_SIZE 0 0 with
  | none => none
  | some checksum =>
    some { h with Checksum := copyInto h.Checksum (beBytes32 (uint32OfInt (-checksum - 1))) }

/-- A loop of n iterations each writing chunk to the file: the bytes written. -/
def writeLoop (chunk : List Byte) : ℕ → List Byte
  | 0 => []
  | n + 1 => chunk ++ writeLoop chunk n

/-- First part of CreateSparseVHD: the primary header, built field by field in the source
order and checksummed. The clock reading time.Now().Unix() (an int64) and the 16 bytes
returned by uuidgenBytes are inputs; fields never assigned keep their zero value. -/
def CreateSparseVHD.header (size : ℕ) (now : ℤ) (uuidBytes : ByteArr 16) :
    Option VHDHeader := do
  let header := VHDHeader.zero
  let cookie ← hexToField VHD_COOKIE header.Cookie
  let features ← hexToField "00000002" header.Features
  let fileFormatVersion ← hexToField "00010000" header.FileFormatVersion
  let dataOffset ← hexToField "0000000000000200" header.DataOffset
  let t := uint32OfInt (now - 946684800)
  let timestamp := copyInto header.Timestamp (beBytes32 t)
  let creatorApplication ← hexToField VHD_CREATOR_APP header.CreatorApplication
  let creatorHostOS ← hexToField VHD_CREATOR_HOST_OS header.CreatorHostOS
  let originalSize := copyInto header.OriginalSize (beBytes64 size)
  let currentSize := copyInto header.CurrentSize (beBytes64 size)
  let totalSectors := mathFloor (float64OfUint64 (size / 512))
  let geometry := calculateCHS (uintOfFloat64 totalSectors)
  let diskGeometry := copyInto header.DiskGeometry (beBytes16 (uint16 (geometry.getD 0 0)))
  let diskGeometry := diskGeometry.set 2 (uint8 (geometry.getD 1 0))
  let diskGeometry := diskGeometry.set 3 (uint8 (geometry.getD 2 0))
  let diskType ← hexToField "00000003" header.DiskType
  let checksum ← hexToField "00000000" header.Checksum
  let uniqueId := copyInto header.UniqueId uuidBytes.val
  let header : VHDHeader :=
    { Cookie := cookie, Features := features, FileFormatVersion := fileFormatVersion,
      DataOffset := dataOffset, Timestamp := timestamp,
      CreatorApplication := creatorApplication, CreatorVersion := header.CreatorVersion,
      CreatorHostOS := creatorHostOS, OriginalSize := originalSize,
      CurrentSize := currentSize, DiskGeometry := diskGeometry, DiskType := diskType,
      Checksum := checksum, UniqueId := uniqueId, SavedState := header.SavedState,
      Reserved := header.Reserved }
  header.addChecksum

/-- Second part of CreateSparseVHD: the sparse (extra) header. -/
def CreateSparseVHD.header2 (size : ℕ) : Option VHDExtraHeader := do
  let header2 := VHDExtraHeader.zero
  let cookie ← hexToField VHD_DYN_COOKIE header2.Cookie
  let dataOffset ← hexToField "ffffffffffffffff" header2.DataOffset
  let tableOffset :=
    copyInto header2.TableOffset (beBytes64 (VHD_EXTRA_HEADER_SIZE + VHD_HEADER_SIZE))
  let headerVersion ← hexToField "00010000" header2.HeaderVersion
  let maxTableSize := uint32 (size / VHD_BLOCK_SIZE)
  let maxTableEntries := copyInto header2.MaxTableEntries (beBytes32 maxTableSize)
  let blockSize := copyInto header2.BlockSize (beBytes32 VHD_BLOCK_SIZE)
  let parentTimestamp := copyInto header2.ParentTimestamp (beBytes32 (uint32 0))
  let header2 : VHDExtraHeader :=
    { header2 with
      Cookie := cookie, DataOffset := dataOffset, TableOffset := tableOffset,
      HeaderVersion := headerVersion, MaxTableEntries := maxTableEntries,
      BlockSize := blockSize, ParentTimestamp := parentTimestamp }
  header2.addChecksum

/-- Source function CreateSparseVHD: the byte stream written to the created file (none when
a check panics): header, sparse header, the two BAT loops, and the header again. The loop
bound 1536 - maxTableSize is computed in uint32. -/
def CreateSparseVHD (size : ℕ) (now : ℤ) (uuidBytes : ByteArr 16) : Option (List Byte) := do
  let header ← CreateSparseVHD.header size now uuidBytes
  let header2 ← CreateSparseVHD.header2 size
  let maxTableSize := uint32 (size / VHD_BLOCK_SIZE)
  let f : List Byte := []
  let f := f ++ header.encode
  let f := f ++ header2.encode
  let f := f ++ writeLoop (List.replicate 4 0xff) maxTableSize
  let f := f ++ writeLoop (List.replicate 4 0x0) (uint32 (1536 + 2 ^ 32 - maxTableSize))
  let f := f ++ header.encode
  pure f


/-! ### Notions used to state the properties -/

/-- Unsigned sum of the bytes of a buffer. -/
def byteSum (l : List Byte) : ℕ := (l.map Fin.val).sum

/-- The low 32 bits of the bitwise complement of a byte sum. -/
def complement32 (s : ℕ) : ℕ := uint32OfInt (-(s : ℤ) - 1)

/-- The four-byte array holding v in big-endian order. -/
def be32Arr (v : ℕ) : ByteArr 4 := ⟨beBytes32 v, rfl⟩

/-- The eight-byte array holding v in big-endian order. -/
def be64Arr (v : ℕ) : ByteArr 8 := ⟨beBytes64 v, rfl⟩

/-- Checksum check on a serialized structure whose checksum field is the four bytes at
offset off: zero the field, sum all bytes, complement to 32 bits, and compare with the
big-endian value stored in the field. -/
def storedChecksumValid (buf : List Byte) (off : ℕ) : Prop :=
  beValue ((buf.drop off).take 4) =
    complement32 (byteSum (buf.take off ++ List.replicate 4 0 ++ buf.drop (off + 4)))

/-- A header that is zero except for the last byte of its Checksum field. -/
def headerWithStaleChecksum : VHDHeader :=
  { VHDHeader.zero with Checksum := ⟨[0, 0, 0, 1], rfl⟩ }


/-! ### Inspection: disk type, timestamp, UTF-16 names, PrintVHDHeaders -/

/-- Element a[i] of an array, for a constant index inside the array. -/
def ByteArr.get {n : ℕ} (a : ByteArr n) (i : ℕ) (hi : i < n) : Byte :=
  a.val.get ⟨i, by rw [a.property]; exact hi⟩

/-- Source method (h *VHDHeader) DiskTypeStr: the switch on h.DiskType[3]; none is the
panic of the default case. -/
def VHDHeader.DiskTypeStr (h : VHDHeader) : Option String :=
  match (h.DiskType.get 3 (by decide)).val with
  | 0x00 => some "None"
  | 0x01 => some "Deprecated"
  | 0x02 => some "Fixed"
  | 0x03 => some "Dynamic"
  | 0x04 => some "Differential"
  | 0x05 => some "Reserved"
  | 0x06 => some "Reserved"
  | _ => none

/-- Source method (h *VHDHeader) TimestampTime. The result is the Unix second of the
time.Time returned by time.Unix(sec, 0). In the source the constant 946684800 takes the type
of tstamp, so the sum 946684800 + tstamp is a uint32 sum, converted to int64 afterwards. -/
def VHDHeader.TimestampTime (h : VHDHeader) : ℤ :=
  let tstamp := beValue h.Timestamp.val
  ((uint32 (946684800 + tstamp) : ℕ) : ℤ)

/-- Source function getMaxTableEntries, on uint64. -/
def getMaxTableEntries (diskSize : ℕ) : ℕ := (diskSize * (2 * 1024 * 1024)) % 2 ^ 64

/-- The two byte orders of Go encoding/binary. -/
inductive ByteOrder where
  | BigEndian
  | LittleEndian

/-- Method o.Uint16(b) of a byte order: the value of the first two bytes of b; a slice
shorter than two bytes panics (none). -/
def ByteOrder.Uint16 (o : ByteOrder) (b : List Byte) : Option ℕ :=
  match b with
  | b0 :: b1 :: _ =>
    match o with
    | ByteOrder.BigEndian => some (b1.val + b0.val * 256)
    | ByteOrder.LittleEndian => some (b0.val + b1.val * 256)
  | _ => none

/-- Go utf16.Decode, after the standard library source (unicode/utf16): a code unit outside
D800..DFFF is a rune by itself, a high surrogate followed by a low surrogate is one rune, and
any other surrogate becomes the replacement character U+FFFD. -/
def utf16Decode : List ℕ → List ℕ
  | [] => []
  | [r] => if r < 0xd800 ∨ 0xe000 ≤ r then [r] else [0xFFFD]
  | r :: r2 :: rest =>
    if r < 0xd800 ∨ 0xe000 ≤ r then r :: utf16Decode (r2 :: rest)
    else if r < 0xdc00 ∧ 0xdc00 ≤ r2 ∧ r2 < 0xe000 then
      ((r - 0xd800) * 1024 + (r2 - 0xdc00) + 0x10000) :: utf16Decode rest
    else 0xFFFD :: utf16Decode (r2 :: rest)

/-- The character a Go string conversion gives for one rune: the rune itself when it is a
Unicode scalar value, U+FFFD otherwise. -/
def runeToChar (r : ℕ) : Char :=
  if r < 0xd800 ∨ (0xe000 ≤ r ∧ r < 0x110000) then Char.ofNat r else Char.ofNat 0xFFFD

/-- Go conversion string(runes) of a rune slice: the string of its characters. -/
def stringOfRunes (runes : List ℕ) : String := String.mk (runes.map runeToChar)

/-- The loop "for i := 0; i+(2-1) < len(b); i += 2 { utf[i/2] = o.Uint16(b[i:]) }" of
utf16BytesToString, started at index i with the slice utf; fuel bounds the number of
iterations, and none is a panic (index out of range) or the end of the fuel. -/
def utf16BytesToString.loop (b : List Byte) (o : ByteOrder) :
    ℕ → ℕ → List ℕ → Option (List ℕ)
  | fuel, i, utf =>
    if i + (2 - 1) < b.length then
      match fuel with
      | 0 => none
      | fuel + 1 =>
        match o.Uint16 (b.drop i) with
        | none => none
        | some v =>
          if i / 2 < utf.length then
            utf16BytesToString.loop b o fuel (i + 2) (utf.set (i / 2) v)
          else none
    else some utf

/-- Source function utf16BytesToString; utf8.RuneError is the rune U+FFFD. The loop runs
with len(b) as fuel, more than the number of its iterations. -/
def utf16BytesToString (b : List Byte) (o : ByteOrder) : Option String :=
  let utf : List ℕ := List.replicate ((b.length + (2 - 1)) / 2) 0
  match utf16BytesToString.loop b o b.length 0 utf with
  | none => none
  | some utf =>
    let utf := if b.length / 2 < utf.length then utf.set (utf.length - 1) 0xFFFD else utf
    some (stringOfRunes (utf16Decode utf))

/-- The calls "buf := make([]byte, n); _, err := f.Read(buf); check(err)" on a file whose
unread content is f: at the end of the file Read returns io.EOF and check panics (none);
otherwise the next bytes, at most n, fill the start of buf, the rest of buf stays zero, and
the file advances by the bytes read. The result is (buf, unread content). -/
def fileRead (f : List Byte) (n : ℕ) : Option (List Byte × List Byte) :=
  if f = [] then none
  else some (f.take n ++ List.replicate (n - (f.take n).length) 0, f.drop n)

/-- Source function readVHDHeader without its printing: the header is decoded, and the call
header.DiskTypeStr() made for the "Disk type" line can panic (none). -/
def readVHDHeader (vhdHeader : List Byte) : Option VHDHeader :=
  let header := decodeVHDHeader vhdHeader
  match header.DiskTypeStr with
  | none => none
  | some _ => some header

/-- Source function readVHDExtraHeader without its printing: 1024 bytes are read from the
file and decoded; the parent name is converted by utf16BytesToString. The result is the
decoded structure and the unread content of the file. -/
def readVHDExtraHeader (f : List Byte) : Option (VHDExtraHeader × List Byte) :=
  match fileRead f 1024 with
  | none => none
  | some (vhdHeader, f) =>
    let header := decodeVHDExtraHeader vhdHeader
    match utf16BytesToString header.ParentUnicodeName.val ByteOrder.BigEndian with
    | none => none
    | some _ => some (header, f)

/-- Source function PrintVHDHeaders on a file whose unread content is f. The result is the
decoded header, the decoded extra header when one was read, and the unread content left. -/
def PrintVHDHeaders (f : List Byte) :
    Option (VHDHeader × Option VHDExtraHeader × List Byte) :=
  match fileRead f 512 with
  | none => none
  | some (vhdHeader, f) =>
    match readVHDHeader vhdHeader with
    | none => none
    | some header =>
      if (header.DiskType.get 3 (by decide)).val = 0x3
          ∨ (header.DiskType.get 3 (by decide)).val = 0x04 then
        match readVHDExtraHeader f with
        | none => none
        | some (header2, f) => some (header, some header2, f)
      else some (header, none, f)

/-! ### Further notions used to state the properties -/

/-- The n bytes of a buffer that start at offset off. -/
def bytesAt (buf : List Byte) (off n : ℕ) : List Byte := (buf.drop off).take n

/-- The 16-bit unit made of the bytes b0, b1 (in buffer order) in the given byte order. -/
def unit16 (o : ByteOrder) (b0 b1 : Byte) : ℕ :=
  match o with
  | ByteOrder.BigEndian => b0.val * 256 + b1.val
  | ByteOrder.LittleEndian => b1.val * 256 + b0.val

/-- The 16-bit units of the complete byte pairs of a buffer, in the given byte order; a
dangling last byte is left out. -/
def utf16Units (o : ByteOrder) : List Byte → List ℕ
  | b0 :: b1 :: rest => unit16 o b0 b1 :: utf16Units o rest
  | _ => []

/-- The names of the disk types 0 to 6. -/
def diskTypeNames : List String :=
  ["None", "Deprecated", "Fixed", "Dynamic", "Differential", "Reserved", "Reserved"]

/-- A header that is zero except for its Timestamp field, FF FF FF FF. -/
def headerWithLastTimestamp : VHDHeader :=
  { VHDHeader.zero with Timestamp := ⟨[255, 255, 255, 255], rfl⟩ }

/-- A header that is zero except for its DiskType field, 00 00 01 03. -/
def headerWithWideDiskType : VHDHeader :=
  { VHDHeader.zero with DiskType := ⟨[0, 0, 1, 3], rfl⟩ }
/-! ## Theorems -/

/-! ### float64 rounding -/

theorem roundHalfEven_lower (t : ℚ) (z : ℤ) (h : (z : ℚ) ≤ t) : z ≤ roundHalfEven t := by
  have hf : z ≤ ⌊t⌋ := Int.le_floor.mpr h
  unfold roundHalfEven
  simp only
  split_ifs <;> omega

theorem roundHalfEven_upper (t : ℚ) (z : ℤ) (h : t ≤ (z : ℚ)) : roundHalfEven t ≤ z := by
  have hf : ⌊t⌋ ≤ z := by
    have := Int.floor_le t
    exact_mod_cast this.trans h
  unfold roundHalfEven
  simp only
  split_ifs with h1 h2 h3
  · exact hf
  · have : (⌊t⌋ : ℚ) < z := by linarith
    have : ⌊t⌋ < z := by exact_mod_cast this
    omega
  · exact hf
  · have : (⌊t⌋ : ℚ) < z := by linarith
    have : ⌊t⌋ < z := by exact_mod_cast this
    omega

/-- Rounding when the binary exponent is 52 - k: the spacing is 2^(-k). -/
theorem roundF64_small (x : ℚ) (hx : 0 < x) (k : ℕ) (hk : Int.log 2 x = 52 - (k : ℤ)) :
    roundF64 x = (roundHalfEven (x * 2 ^ k) : ℚ) / 2 ^ k := by
  unfold roundF64
  rw [if_neg hx.ne']
  simp only [abs_of_pos hx, hk]
  have : (52 : ℤ) - k - 52 = -(k : ℤ) := by ring
  rw [this, zpow_neg, zpow_natCast, div_inv_eq_mul, div_eq_mul_inv]

/-- Rounding when the binary exponent is 52 + k: the spacing is 2^k. -/
theorem roundF64_large (x : ℚ) (hx : 0 < x) (k : ℕ) (hk : Int.log 2 x = 52 + (k : ℤ)) :
    roundF64 x = (roundHalfEven (x / 2 ^ k) : ℚ) * 2 ^ k := by
  unfold roundF64
  rw [if_neg hx.ne']
  simp only [abs_of_pos hx, hk]
  have : (52 : ℤ) + k - 52 = (k : ℤ) := by ring
  rw [this, zpow_natCast]

/-- Rounding does not cross a multiple of 2^(-j) when the spacing 2^(-k) divides it: a
multiple M / 2^j below x stays below the rounded value, one above x stays above. -/
theorem roundF64_grid (x : ℚ) (hx : 0 < x) (k : ℕ) (hk : Int.log 2 x = 52 - (k : ℤ))
    (j : ℕ) (hj : j ≤ k) (M : ℤ) :
    ((M : ℚ) ≤ x * 2 ^ j → (M : ℚ) ≤ roundF64 x * 2 ^ j) ∧
    (x * 2 ^ j ≤ (M : ℚ) → roundF64 x * 2 ^ j ≤ (M : ℚ)) := by
  obtain ⟨i, rfl⟩ := Nat.exists_eq_add_of_le hj
  rw [roundF64_small x hx _ hk]
  have h2j : (0 : ℚ) < 2 ^ j := by positivity
  have h2i : (0 : ℚ) < 2 ^ i := by positivity
  have hsplit : (2 : ℚ) ^ (j + i) = 2 ^ j * 2 ^ i := pow_add 2 j i
  have key : ∀ r : ℚ, r / 2 ^ (j + i) * 2 ^ j = r / 2 ^ i := by
    intro r
    rw [hsplit]
    field_simp
    ring
  rw [key]
  constructor
  · intro h
    have h1 : ((M * 2 ^ i : ℤ) : ℚ) ≤ x * 2 ^ (j + i) := by
      rw [hsplit]; push_cast
      nlinarith
    have h2 := roundHalfEven_lower _ _ h1
    rw [le_div_iff₀ h2i]
    exact_mod_cast h2
  · intro h
    have h1 : x * 2 ^ (j + i) ≤ ((M * 2 ^ i : ℤ) : ℚ) := by
      rw [hsplit]; push_cast
      nlinarith
    have h2 := roundHalfEven_upper _ _ h1
    rw [div_le_iff₀ h2i]
    exact_mod_cast h2

theorem log_small (x : ℚ) (hx : 0 < x) (n : ℕ) (hn : n ≤ 53) (h : x < 2 ^ n) :
    ∃ k : ℕ, 53 - n ≤ k ∧ Int.log 2 x = 52 - (k : ℤ) := by
  have h1 : ((2 : ℕ) : ℚ) ^ Int.log 2 x ≤ x := Int.zpow_log_le_self (by norm_num) hx
  have h2 : ((2 : ℕ) : ℚ) ^ Int.log 2 x < ((2 : ℕ) : ℚ) ^ (n : ℤ) := by
    rw [zpow_natCast]; push_cast; push_cast at h1; linarith
  have h3 : Int.log 2 x < n := (zpow_lt_zpow_iff_right₀ (by norm_num)).mp h2
  refine ⟨(52 - Int.log 2 x).toNat, ?_, ?_⟩ <;> omega

/-- A natural number below 2^53 is a binary64 number. -/
theorem roundF64_natCast (n : ℕ) (hn : n < 2 ^ 53) : roundF64 (n : ℚ) = n := by
  rcases Nat.eq_zero_or_pos n with rfl | hpos
  · simp [roundF64]
  have hx : (0 : ℚ) < n := by exact_mod_cast hpos
  have hlt : (n : ℚ) < 2 ^ 53 := by exact_mod_cast hn
  obtain ⟨k, -, hk⟩ := log_small (n : ℚ) hx 53 le_rfl hlt
  have g := roundF64_grid (n : ℚ) hx k hk 0 (Nat.zero_le _) (n : ℤ)
  simp only [pow_zero, mul_one, Int.cast_natCast, le_refl, forall_const] at g
  exact le_antisymm g.2 g.1

theorem roundF64_natCast_large (n : ℕ) (hn : 2 ^ 53 ≤ n) :
    (2 : ℚ) ^ 53 ≤ roundF64 (n : ℚ) := by
  have hx : (0 : ℚ) < n := by
    have : 0 < n := lt_of_lt_of_le (by norm_num) hn
    exact_mod_cast this
  have hge : ((2 : ℕ) : ℚ) ^ ((53 : ℕ) : ℤ) ≤ (n : ℚ) := by
    rw [zpow_natCast]; exact_mod_cast hn
  have h53 : ((53 : ℕ) : ℤ) ≤ Int.log 2 (n : ℚ) :=
    (Int.zpow_le_iff_le_log (by norm_num) hx).mp hge
  obtain ⟨k, hk⟩ : ∃ k : ℕ, Int.log 2 (n : ℚ) = 52 + (k : ℤ) :=
    ⟨(Int.log 2 (n : ℚ) - 52).toNat, by omega⟩
  have hk1 : 1 ≤ k := by omega
  rw [roundF64_large _ hx k hk]
  have h1 : ((2 : ℕ) : ℚ) ^ Int.log 2 (n : ℚ) ≤ n := Int.zpow_log_le_self (by norm_num) hx
  rw [hk, zpow_add₀ (by norm_num), zpow_natCast] at h1
  have h2k : (0 : ℚ) < 2 ^ k := by positivity
  have h3 : (((2 : ℤ) ^ 52 : ℤ) : ℚ) ≤ (n : ℚ) / 2 ^ k := by
    rw [le_div_iff₀ h2k]; push_cast; push_cast at h1; norm_num at h1 ⊢; linarith
  have h4 : ((2 : ℤ) ^ 52 : ℤ) ≤ roundHalfEven ((n : ℚ) / 2 ^ k) :=
    roundHalfEven_lower _ _ h3
  have h5 : ((2 : ℚ) ^ 52) ≤ (roundHalfEven ((n : ℚ) / 2 ^ k) : ℚ) := by exact_mod_cast h4
  have h6 : (2 : ℚ) ^ 1 ≤ 2 ^ k := pow_le_pow_right₀ (by norm_num) hk1
  calc (2 : ℚ) ^ 53 = 2 ^ 52 * 2 ^ 1 := by norm_num
    _ ≤ (roundHalfEven ((n : ℚ) / 2 ^ k) : ℚ) * 2 ^ k :=
        mul_le_mul h5 h6 (by norm_num) (le_trans (by norm_num) h5)

/-- Floor of the correctly rounded quotient of two small naturals is the integer quotient. -/
theorem floor_roundF64_div (a b : ℕ) (ha : a < 2 ^ 32) (hb0 : 0 < b) (hb : b ≤ 1024) :
    ⌊roundF64 ((a : ℚ) / (b : ℚ))⌋ = ((a / b : ℕ) : ℤ) := by
  have hbq : (0 : ℚ) < b := by exact_mod_cast hb0
  rcases Nat.eq_zero_or_pos a with rfl | hpos
  · simp [roundF64]
  have hx : (0 : ℚ) < (a : ℚ) / b := div_pos (by exact_mod_cast hpos) hbq
  have hlt : (a : ℚ) / b < 2 ^ 32 := by
    rw [div_lt_iff₀ hbq]
    have h1 : (a : ℚ) < 2 ^ 32 := by exact_mod_cast ha
    have h2 : (1 : ℚ) ≤ b := by exact_mod_cast hb0
    nlinarith
  obtain ⟨k, hk21, hk⟩ := log_small _ hx 32 (by norm_num) hlt
  have hqle : ((a / b : ℕ) : ℚ) ≤ (a : ℚ) / b := Nat.cast_div_le
  have hmul : a < b * (a / b + 1) := Nat.lt_mul_div_succ a hb0
  generalize a / b = q at hqle hmul ⊢
  have hmulq : (a : ℚ) + 1 ≤ (b : ℚ) * ((q : ℚ) + 1) := by exact_mod_cast hmul
  have hbq' : (b : ℚ) ≤ 1024 := by exact_mod_cast hb
  have g0 := (roundF64_grid _ hx k hk 0 (Nat.zero_le _) (q : ℤ)).1
  have g1 := (roundF64_grid _ hx k hk 10 (by omega) (((q : ℤ) + 1) * 1024 - 1)).2
  simp only [pow_zero, mul_one, Int.cast_natCast] at g0
  have lo := g0 hqle
  have hup : (a : ℚ) / b * 2 ^ 10 ≤ ((((q : ℤ) + 1) * 1024 - 1 : ℤ) : ℚ) := by
    push_cast
    rw [div_mul_eq_mul_div, div_le_iff₀ hbq]
    nlinarith
  have hi := g1 hup
  push_cast at hi
  rw [Int.floor_eq_iff]
  refine ⟨by exact_mod_cast lo, ?_⟩
  push_cast
  nlinarith

/-! ### calculateCHS in integer arithmetic -/

theorem mathFloor_fdiv_natCast (a b : ℕ) (ha : a < 2 ^ 32) (hb0 : 0 < b) (hb : b ≤ 1024) :
    mathFloor (fdiv (a : ℚ) (b : ℚ)) = ((a / b : ℕ) : ℚ) := by
  unfold mathFloor fdiv
  rw [floor_roundF64_div a b ha hb0 hb]
  norm_cast

theorem uintOfFloat64_fdiv_natCast (a b : ℕ) (ha : a < 2 ^ 32) (hb0 : 0 < b) (hb : b ≤ 1024) :
    uintOfFloat64 (fdiv (a : ℚ) (b : ℚ)) = a / b := by
  unfold uintOfFloat64 fdiv
  have h := floor_roundF64_div a b ha hb0 hb
  rw [← Int.floor_toNat, h]
  exact Int.toNat_natCast _

theorem uintOfFloat64_natCast (a : ℕ) : uintOfFloat64 (a : ℚ) = a := by
  unfold uintOfFloat64
  exact Nat.floor_natCast a

theorem fadd_natCast (a b : ℕ) (h : a + b < 2 ^ 53) :
    fadd (a : ℚ) (b : ℚ) = ((a + b : ℕ) : ℚ) := by
  unfold fadd
  rw [← Nat.cast_add, roundF64_natCast _ h]

theorem fmul_natCast (a b : ℕ) (h : a * b < 2 ^ 53) :
    fmul (a : ℚ) (b : ℚ) = ((a * b : ℕ) : ℚ) := by
  unfold fmul
  rw [← Nat.cast_mul, roundF64_natCast _ h]

/-- On a clamped integer sector count the float64 locals of calculateCHS hold the integers
of the integer computation. -/
theorem vars_natCast (s : ℕ) (hs : s ≤ 65535 * 16 * 255) :
    calculateCHS.vars (s : ℚ) = CHSVars.ofNat (chsInt s) := by
  have hs32 : s < 2 ^ 32 := by omega
  have e255 : mathFloor (fdiv (s : ℚ) 255) = ((s / 255 : ℕ) : ℚ) := by
    simpa using mathFloor_fdiv_natCast s 255 hs32 (by norm_num) (by norm_num)
  have e17 : mathFloor (fdiv (s : ℚ) 17) = ((s / 17 : ℕ) : ℚ) := by
    simpa using mathFloor_fdiv_natCast s 17 hs32 (by norm_num) (by norm_num)
  have e31 : mathFloor (fdiv (s : ℚ) 31) = ((s / 31 : ℕ) : ℚ) := by
    simpa using mathFloor_fdiv_natCast s 31 hs32 (by norm_num) (by norm_num)
  have e63 : mathFloor (fdiv (s : ℚ) 63) = ((s / 63 : ℕ) : ℚ) := by
    simpa using mathFloor_fdiv_natCast s 63 hs32 (by norm_num) (by norm_num)
  have eadd : fadd ((s / 17 : ℕ) : ℚ) 1023 = ((s / 17 + 1023 : ℕ) : ℚ) := by
    simpa using fadd_natCast (s / 17) 1023 (by omega)
  have e1024 : mathFloor (fdiv ((s / 17 + 1023 : ℕ) : ℚ) 1024)
      = (((s / 17 + 1023) / 1024 : ℕ) : ℚ) := by
    simpa using mathFloor_fdiv_natCast (s / 17 + 1023) 1024 (by omega) (by norm_num) (by norm_num)
  have emul : ∀ h : ℕ, h ≤ 2 ^ 32 → fmul (h : ℚ) 1024 = ((h * 1024 : ℕ) : ℚ) := by
    intro h hh
    simpa using fmul_natCast h 1024 (by omega)
  unfold calculateCHS.vars chsInt
  by_cases h1 : 65535 * 16 * 63 ≤ s
  · have h1q : (s : ℚ) ≥ 65535 * 16 * 63 := by exact_mod_cast h1
    rw [if_pos h1q, if_pos h1, e255]
    simp [CHSVars.ofNat]
  · have h1q : ¬ (s : ℚ) ≥ 65535 * 16 * 63 := by
      intro h; apply h1; exact_mod_cast h
    rw [if_neg h1q, if_neg h1]
    simp only [e17, eadd, e1024, e31, e63]
    have hh0 : (s / 17 + 1023) / 1024 ≤ 2 ^ 30 := by omega
    generalize (s / 17 + 1023) / 1024 = h0 at hh0 ⊢
    generalize s / 17 = cth
    have hA : (if ((h0 : ℕ) : ℚ) < 4 then
          ({ sectorsPerTrack := 17, heads := 4, cylinderTimesHeads := (cth : ℚ) } : CHSVars)
        else { sectorsPerTrack := 17, heads := (h0 : ℚ), cylinderTimesHeads := (cth : ℚ) })
        = CHSVars.ofNat (17, max 4 h0, cth) := by
      by_cases h4 : h0 < 4
      · have : ((h0 : ℕ) : ℚ) < 4 := by exact_mod_cast h4
        rw [if_pos this, max_eq_left (by omega)]
        simp [CHSVars.ofNat]
      · have : ¬ ((h0 : ℕ) : ℚ) < 4 := by intro h; apply h4; exact_mod_cast h
        rw [if_neg this, max_eq_right (by omega)]
        simp [CHSVars.ofNat]
    rw [hA]
    have hB : ∀ (r : ℕ × ℕ × ℕ), r.2.1 ≤ 2 ^ 32 →
        (((CHSVars.ofNat r).cylinderTimesHeads ≥ fmul (CHSVars.ofNat r).heads 1024) ↔
          r.2.1 * 1024 ≤ r.2.2) := by
      intro r hr
      simp only [CHSVars.ofNat, emul _ hr, ge_iff_le, Nat.cast_le]
    have hC : ∀ (r : ℕ × ℕ × ℕ), ((CHSVars.ofNat r).heads > 16 ↔ 16 < r.2.1) := by
      intro r
      simp only [CHSVars.ofNat, gt_iff_lt, Nat.ofNat_lt_cast]
    have e31c : (⟨31, 16, ((s / 31 : ℕ) : ℚ)⟩ : CHSVars) = CHSVars.ofNat (31, 16, s / 31) := by
      simp [CHSVars.ofNat]
    have e63c : (⟨63, 16, ((s / 63 : ℕ) : ℚ)⟩ : CHSVars) = CHSVars.ofNat (63, 16, s / 63) := by
      simp [CHSVars.ofNat]
    have hmax : max 4 h0 ≤ 2 ^ 32 := max_le (by norm_num) (by omega)
    simp only [hB (17, max 4 h0, cth) hmax, hC, e31c, e63c]
    rw [← apply_ite CHSVars.ofNat]
    have hr : (if (17, max 4 h0, cth).2.1 * 1024 ≤ (17, max 4 h0, cth).2.2 ∨
        16 < (17, max 4 h0, cth).2.1 then ((31 : ℕ), (16 : ℕ), s / 31)
        else (17, max 4 h0, cth)).2.1 ≤ 2 ^ 32 := by
      split_ifs
      · norm_num
      · exact hmax
    simp only [hB _ hr]
    rw [← apply_ite CHSVars.ofNat]

theorem chsInt_heads (s : ℕ) : 4 ≤ (chsInt s).2.1 ∧ (chsInt s).2.1 ≤ 16 := by
  unfold chsInt
  dsimp only
  split_ifs with h1 h2 h3 h4 <;> dsimp only <;> omega

theorem chsInt_spt (s : ℕ) :
    (chsInt s).1 = 17 ∨ (chsInt s).1 = 31 ∨ (chsInt s).1 = 63 ∨ (chsInt s).1 = 255 := by
  unfold chsInt
  simp only
  split_ifs <;> simp

theorem chsInt_cth (s : ℕ) : (chsInt s).2.2 = s / (chsInt s).1 := by
  unfold chsInt
  simp only
  split_ifs <;> simp

theorem chsInt_cyl (s : ℕ) (hs : s ≤ 65535 * 16 * 255) :
    (chsInt s).2.2 / (chsInt s).2.1 ≤ 65535 := by
  unfold chsInt
  dsimp only
  split_ifs with h1 h2 h3 h4 <;> dsimp only at * <;> first
    | omega
    | exact le_of_lt (lt_of_lt_of_le
        (Nat.div_lt_of_lt_mul (m := s / 17) (n := max 4 ((s / 17 + 1023) / 1024)) (k := 1024)
          (Nat.lt_of_not_le h4))
        (by norm_num))

/-- The conversion float64(ts) followed by the clamp is the real minimum: the conversion is
exact below 2^53 and any larger ts converts to at least 2^53. -/
theorem clamp_natCast (ts : ℕ) :
    (if float64OfUint64 ts > 65535 * 16 * 255 then (65535 * 16 * 255 : ℚ) else float64OfUint64 ts)
      = ((min ts (65535 * 16 * 255) : ℕ) : ℚ) := by
  unfold float64OfUint64
  by_cases h : ts ≤ 65535 * 16 * 255
  · rw [roundF64_natCast ts (by omega), min_eq_left h]
    have : ¬ ((ts : ℚ) > 65535 * 16 * 255) := by
      have : (ts : ℚ) ≤ 65535 * 16 * 255 := by exact_mod_cast h
      linarith
    rw [if_neg this]
  · rw [min_eq_right (by omega)]
    have : roundF64 (ts : ℚ) > 65535 * 16 * 255 := by
      by_cases h53 : ts < 2 ^ 53
      · rw [roundF64_natCast ts h53]
        have : 65535 * 16 * 255 < ts := by omega
        exact_mod_cast this
      · have := roundF64_natCast_large ts (by omega)
        norm_num at this ⊢
        linarith
    rw [if_pos this]
    norm_num

/-- The result of calculateCHS in integer arithmetic. -/
theorem calculateCHS_eq_chsInt (ts : ℕ) :
    calculateCHS ts =
      [(chsInt (min ts (65535 * 16 * 255))).2.2 / (chsInt (min ts (65535 * 16 * 255))).2.1,
       (chsInt (min ts (65535 * 16 * 255))).2.1, (chsInt (min ts (65535 * 16 * 255))).1] := by
  unfold calculateCHS
  simp only [clamp_natCast]
  have hs : min ts (65535 * 16 * 255) ≤ 65535 * 16 * 255 := min_le_right _ _
  generalize min ts (65535 * 16 * 255) = s at hs ⊢
  rw [vars_natCast s hs]
  have hh := chsInt_heads s
  have hc := chsInt_cth s
  have hcth : (chsInt s).2.2 < 2 ^ 32 := by
    rw [hc]
    exact lt_of_le_of_lt (Nat.div_le_self _ _) (by omega)
  simp only [CHSVars.ofNat, uintOfFloat64_natCast,
    uintOfFloat64_fdiv_natCast (chsInt s).2.2 (chsInt s).2.1 hcth (by omega) (by omega)]

/-! ### Claims on the geometry calculator -/

/-- Claim C1: for every total sector count, calculateCHS (computed in float64) returns
exactly the list of the integer reference algorithm of specification section 4.1. -/
theorem calculateCHS_eq_chsReference (ts : ℕ) : calculateCHS ts = chsReference ts := by
  rw [calculateCHS_eq_chsInt]
  unfold chsReference chsInt
  simp only [ge_iff_le, gt_iff_lt]
  split_ifs <;> rfl

/-- Claim C2: for every total sector count ts, calculateCHS returns a triple
[C, H, S] with C * H * S ≤ ts. -/
theorem calculateCHS_capacity_le (ts : ℕ) :
    ∃ c h s : ℕ, calculateCHS ts = [c, h, s] ∧ c * h * s ≤ ts := by
  refine ⟨_, _, _, calculateCHS_eq_chsInt ts, ?_⟩
  have hc := chsInt_cth (min ts (65535 * 16 * 255))
  generalize chsInt (min ts (65535 * 16 * 255)) = r at hc ⊢
  rw [hc]
  calc min ts (65535 * 16 * 255) / r.1 / r.2.1 * r.2.1 * r.1
      ≤ min ts (65535 * 16 * 255) / r.1 * r.1 :=
        Nat.mul_le_mul_right _ (Nat.div_mul_le_self _ _)
    _ ≤ min ts (65535 * 16 * 255) := Nat.div_mul_le_self _ _
    _ ≤ ts := min_le_left _ _

/-- Claim C3: for every total sector count, calculateCHS returns [C, H, S] with
C ≤ 65535, 4 ≤ H ≤ 16 and S one of 17, 31, 63, 255; so H is not zero and the conversions
uint16(C), uint8(H), uint8(S) of CreateSparseVHD keep the values. -/
theorem calculateCHS_ranges (ts : ℕ) :
    ∃ c h s : ℕ, calculateCHS ts = [c, h, s] ∧
      c ≤ 65535 ∧ 4 ≤ h ∧ h ≤ 16 ∧ (s = 17 ∨ s = 31 ∨ s = 63 ∨ s = 255) ∧
      h ≠ 0 ∧ uint16 c = c ∧ (uint8 h).val = h ∧ (uint8 s).val = s := by
  refine ⟨_, _, _, calculateCHS_eq_chsInt ts, ?_⟩
  have hcyl := chsInt_cyl (min ts (65535 * 16 * 255)) (min_le_right _ _)
  have hh := chsInt_heads (min ts (65535 * 16 * 255))
  have hs := chsInt_spt (min ts (65535 * 16 * 255))
  generalize chsInt (min ts (65535 * 16 * 255)) = r at hcyl hh hs ⊢
  generalize r.2.2 / r.2.1 = c at hcyl ⊢
  refine ⟨hcyl, hh.1, hh.2, hs, by omega, ?_, ?_, ?_⟩
  · unfold uint16; omega
  · unfold uint8; simp only; omega
  · unfold uint8; simp only; omega

/-! ### Header codec -/

theorem ByteArr.length_val {n : ℕ} (v : ByteArr n) : v.val.length = n := v.property

theorem readArr_append {n : ℕ} (v : ByteArr n) (rest : List Byte) :
    readArr n (v.val ++ rest) = (v, rest) := by
  obtain ⟨l, hl⟩ := v
  subst hl
  refine Prod.ext (Subtype.ext ?_) ?_
  · show List.ofFn (fun i : Fin l.length => (l ++ rest).getD i.val 0) = l
    apply List.ext_getElem (by simp)
    intro i h1 h2
    simp [List.getD_eq_getElem?_getD, List.getElem?_append_left h2, List.getElem?_eq_getElem h2]
  · show (l ++ rest).drop l.length = rest
    simp

theorem readArr_self {n : ℕ} (v : ByteArr n) : readArr n v.val = (v, []) := by
  have := readArr_append v []
  simpa using this

theorem VHDHeader.length_encode (h : VHDHeader) : h.encode.length = 512 := by
  simp only [VHDHeader.encode, List.length_append, ByteArr.length_val]

theorem VHDExtraHeader.length_encode_extra (h : VHDExtraHeader) : h.encode.length = 1024 := by
  simp only [VHDExtraHeader.encode, List.length_append, ByteArr.length_val]

theorem decodeVHDHeader_encode (h : VHDHeader) : decodeVHDHeader h.encode = h := by
  unfold decodeVHDHeader
  rw [if_neg (by rw [VHDHeader.length_encode]; decide)]
  simp only [VHDHeader.encode, readArr_append, readArr_self]

theorem decodeVHDExtraHeader_encode (h : VHDExtraHeader) :
    decodeVHDExtraHeader h.encode = h := by
  unfold decodeVHDExtraHeader
  rw [if_neg (by rw [VHDExtraHeader.length_encode_extra]; decide)]
  simp only [VHDExtraHeader.encode, readArr_append, readArr_self]

/-- Claim C4: for every VHDHeader x and VHDExtraHeader y, the encoding has exactly 512
bytes, respectively 1024 bytes, and decoding the encoding gives back x, respectively y. -/
theorem header_codec_roundtrip (x : VHDHeader) (y : VHDExtraHeader) :
    x.encode.length = 512 ∧ y.encode.length = 1024 ∧
      decodeVHDHeader x.encode = x ∧ decodeVHDExtraHeader y.encode = y :=
  ⟨x.length_encode, y.length_encode_extra, decodeVHDHeader_encode x,
    decodeVHDExtraHeader_encode y⟩

/-! ### Checksum -/

theorem byteSum_append (a b : List Byte) : byteSum (a ++ b) = byteSum a + byteSum b := by
  simp [byteSum]

theorem byteSum_le (l : List Byte) : byteSum l ≤ 255 * l.length := by
  induction l with
  | nil => simp [byteSum]
  | cons a l ih =>
    have := a.isLt
    simp only [byteSum, List.map_cons, List.sum_cons, List.length_cons] at ih ⊢
    omega

theorem checksumLoop_eq (bb : List Byte) (k counter : ℕ) (checksum : ℤ)
    (h : counter + k ≤ bb.length) :
    checksumLoop bb k counter checksum
      = some (checksum + (byteSum ((bb.drop counter).take k) : ℤ)) := by
  induction k generalizing counter checksum with
  | zero => simp [checksumLoop, byteSum]
  | succ k ih =>
    have hc : counter < bb.length := by omega
    rw [checksumLoop, List.get?_eq_get hc]
    simp only
    rw [ih (counter + 1) _ (by omega)]
    have hd : bb.drop counter = bb.get ⟨counter, hc⟩ :: bb.drop (counter + 1) := by
      simp
    rw [hd, List.take_succ_cons]
    simp only [byteSum, List.map_cons, List.sum_cons]
    push_cast
    ring_nf

theorem checksumLoop_full (bb : List Byte) (n : ℕ) (h : bb.length = n) :
    checksumLoop bb n 0 0 = some (byteSum bb : ℤ) := by
  rw [checksumLoop_eq bb n 0 0 (by omega)]
  simp [← h]

theorem uint32OfInt_complement (s : ℕ) (h : s < 2 ^ 32) :
    uint32OfInt (-(s : ℤ) - 1) = 2 ^ 32 - 1 - s := by
  unfold uint32OfInt
  omega

theorem copyInto_full {n : ℕ} (dst : ByteArr n) (src : List Byte) (h : src.length = n) :
    copyInto dst src = ⟨src, h⟩ := by
  apply Subtype.ext
  simp [copyInto, ← h, dst.property]

theorem copyInto_beBytes32 (dst : ByteArr 4) (v : ℕ) : copyInto dst (beBytes32 v) = be32Arr v :=
  copyInto_full dst (beBytes32 v) rfl

theorem copyInto_beBytes64 (dst : ByteArr 8) (v : ℕ) : copyInto dst (beBytes64 v) = be64Arr v :=
  copyInto_full dst (beBytes64 v) rfl

theorem VHDHeader.addChecksum_eq (h : VHDHeader) :
    h.addChecksum = some { h with Checksum := be32Arr (complement32 (byteSum h.encode)) } := by
  unfold VHDHeader.addChecksum
  simp only [checksumLoop_full h.encode VHD_HEADER_SIZE h.length_encode]
  rw [copyInto_beBytes32]
  rfl

theorem VHDExtraHeader.addChecksum_eq_extra (h : VHDExtraHeader) :
    h.addChecksum = some { h with Checksum := be32Arr (complement32 (byteSum h.encode)) } := by
  unfold VHDExtraHeader.addChecksum
  simp only [checksumLoop_full h.encode VHD_EXTRA_HEADER_SIZE h.length_encode_extra]
  rw [copyInto_beBytes32]
  rfl

theorem complement32_eq (s : ℕ) (h : s < 2 ^ 32) : complement32 s = 2 ^ 32 - 1 - s :=
  uint32OfInt_complement s h

theorem beValue_beBytes32 (v : ℕ) (h : v < 2 ^ 32) : beValue (beBytes32 v) = v := by
  simp only [beValue, beBytes32, uint8, List.foldl_cons, List.foldl_nil]
  omega

theorem beValue_beBytes64 (v : ℕ) (h : v < 2 ^ 64) : beValue (beBytes64 v) = v := by
  simp only [beValue, beBytes64, uint8, List.foldl_cons, List.foldl_nil]
  omega

theorem byteSum_zero (n : ℕ) : byteSum (ByteArr.zero n).val = 0 := by
  induction n with
  | zero => rfl
  | succ n ih =>
    simp only [ByteArr.zero, byteSum, List.replicate_succ, List.map_cons, List.sum_cons] at ih ⊢
    simp [ih]

theorem byteSum_eq_zero_arr4 (v : ByteArr 4) (h : byteSum v.val = 0) : v = ByteArr.zero 4 := by
  obtain ⟨l, hl⟩ := v
  apply Subtype.ext
  match l, hl with
  | [a, b, c, d], _ =>
    simp only [byteSum, List.map_cons, List.map_nil, List.sum_cons, List.sum_nil] at h
    have ha : a = 0 := Fin.ext (by simp only [Fin.val_zero]; omega)
    have hb : b = 0 := Fin.ext (by simp only [Fin.val_zero]; omega)
    have hc : c = 0 := Fin.ext (by simp only [Fin.val_zero]; omega)
    have hd : d = 0 := Fin.ext (by simp only [Fin.val_zero]; omega)
    subst ha hb hc hd
    rfl

theorem VHDHeader.byteSum_encode_split (h : VHDHeader) :
    byteSum h.encode
      = byteSum ({ h with Checksum := ByteArr.zero 4 } : VHDHeader).encode
        + byteSum h.Checksum.val := by
  simp only [VHDHeader.encode, byteSum_append, byteSum_zero]
  omega

theorem VHDExtraHeader.byteSum_encode_split_extra (h : VHDExtraHeader) :
    byteSum h.encode
      = byteSum ({ h with Checksum := ByteArr.zero 4 } : VHDExtraHeader).encode
        + byteSum h.Checksum.val := by
  simp only [VHDExtraHeader.encode, byteSum_append, byteSum_zero]
  omega

theorem VHDHeader.byteSum_encode_lt (h : VHDHeader) : byteSum h.encode < 2 ^ 32 := by
  have := byteSum_le h.encode
  rw [h.length_encode] at this
  omega

theorem VHDExtraHeader.byteSum_encode_lt_extra (h : VHDExtraHeader) :
    byteSum h.encode < 2 ^ 32 := by
  have := byteSum_le h.encode
  rw [h.length_encode_extra] at this
  omega

theorem be32Arr_complement_inj (a b : ℕ) (ha : a < 2 ^ 32) (hb : b < 2 ^ 32)
    (h : be32Arr (complement32 a) = be32Arr (complement32 b)) : a = b := by
  have h1 : beValue (beBytes32 (complement32 a)) = beValue (beBytes32 (complement32 b)) :=
    congrArg (fun v : ByteArr 4 => beValue v.val) h
  rw [complement32_eq a ha, complement32_eq b hb, beValue_beBytes32 _ (by omega),
    beValue_beBytes32 _ (by omega)] at h1
  omega

theorem VHDHeader.byteSum_encode_zero : byteSum VHDHeader.zero.encode = 0 := by
  simp only [VHDHeader.encode, VHDHeader.zero, byteSum_append, byteSum_zero]

theorem VHDExtraHeader.byteSum_encode_zero_extra : byteSum VHDExtraHeader.zero.encode = 0 := by
  simp only [VHDExtraHeader.encode, VHDExtraHeader.zero, byteSum_append, byteSum_zero]

/-- Claim C5, refuted as stated: on a header whose Checksum field holds 00 00 00 01,
addChecksum stores FF FF FF FE, while the complement of the byte sum taken with the checksum
field as zero is FF FF FF FF. -/
theorem addChecksum_stale_field_counterexample :
    (headerWithStaleChecksum.addChecksum).map (fun h => h.Checksum.val)
        = some [255, 255, 255, 254] ∧
      beBytes32 (complement32
        (byteSum ({ headerWithStaleChecksum with Checksum := ByteArr.zero 4 } : VHDHeader).encode))
        = [255, 255, 255, 255] ∧
      (headerWithStaleChecksum.addChecksum).map (fun h => h.Checksum.val)
        ≠ some (beBytes32 (complement32
          (byteSum ({ headerWithStaleChecksum with Checksum := ByteArr.zero 4 }
            : VHDHeader).encode))) := by
  have hz : ({ headerWithStaleChecksum with Checksum := ByteArr.zero 4 } : VHDHeader)
      = VHDHeader.zero := rfl
  have h1 : byteSum headerWithStaleChecksum.encode = 1 := by
    rw [VHDHeader.byteSum_encode_split, hz, VHDHeader.byteSum_encode_zero]
    rfl
  refine ⟨?_, ?_, ?_⟩
  · rw [VHDHeader.addChecksum_eq, h1]
    decide
  · rw [hz, VHDHeader.byteSum_encode_zero]
    decide
  · rw [VHDHeader.addChecksum_eq, h1, hz, VHDHeader.byteSum_encode_zero]
    decide

/-- Claim C5, amended: after addChecksum the Checksum field holds, big-endian, the low 32
bits of the complement of the sum of all bytes of the structure as serialized before the
call, that is the sum taken with the checksum field as zero plus the four bytes the field
held; the stored value is the checksum computed with the field zeroed exactly when the
field was all zero before the call. This holds for VHDHeader and for VHDExtraHeader. -/
theorem addChecksum_stores_complement_of_serialized_sum (h : VHDHeader) (e : VHDExtraHeader) :
    (∃ h1 : VHDHeader, h.addChecksum = some h1 ∧
      h1.Checksum = be32Arr (complement32
        (byteSum ({ h with Checksum := ByteArr.zero 4 } : VHDHeader).encode
          + byteSum h.Checksum.val)) ∧
      (h1.Checksum = be32Arr (complement32
          (byteSum ({ h with Checksum := ByteArr.zero 4 } : VHDHeader).encode))
        ↔ h.Checksum = ByteArr.zero 4)) ∧
    (∃ e1 : VHDExtraHeader, e.addChecksum = some e1 ∧
      e1.Checksum = be32Arr (complement32
        (byteSum ({ e with Checksum := ByteArr.zero 4 } : VHDExtraHeader).encode
          + byteSum e.Checksum.val)) ∧
      (e1.Checksum = be32Arr (complement32
          (byteSum ({ e with Checksum := ByteArr.zero 4 } : VHDExtraHeader).encode))
        ↔ e.Checksum = ByteArr.zero 4)) := by
  constructor
  · refine ⟨_, h.addChecksum_eq, ?_, ?_⟩
    · show be32Arr (complement32 (byteSum h.encode)) = _
      rw [h.byteSum_encode_split]
    · show be32Arr (complement32 (byteSum h.encode)) = _ ↔ _
      have hlt := h.byteSum_encode_lt
      have hsplit := h.byteSum_encode_split
      constructor
      · intro heq
        have := be32Arr_complement_inj _ _ hlt (by omega) heq
        exact byteSum_eq_zero_arr4 _ (by omega)
      · intro hz
        rw [hsplit, hz, byteSum_zero, Nat.add_zero]
  · refine ⟨_, e.addChecksum_eq_extra, ?_, ?_⟩
    · show be32Arr (complement32 (byteSum e.encode)) = _
      rw [e.byteSum_encode_split_extra]
    · show be32Arr (complement32 (byteSum e.encode)) = _ ↔ _
      have hlt := e.byteSum_encode_lt_extra
      have hsplit := e.byteSum_encode_split_extra
      constructor
      · intro heq
        have := be32Arr_complement_inj _ _ hlt (by omega) heq
        exact byteSum_eq_zero_arr4 _ (by omega)
      · intro hz
        rw [hsplit, hz, byteSum_zero, Nat.add_zero]

/-- Claim C6: for a VHDHeader h and a VHDExtraHeader e whose Checksum field is all zero,
every index 0..511 (0..1023) of the serialized bytes is in bounds, and addChecksum stores
in Checksum the big-endian 32-bit value 2^32 - 1 - sum, sum being the unsigned sum of the
512 (1024) serialized bytes (at most 255 per byte, so the subtraction is exact); this sum
is also the one taken with the checksum field as zero. -/
theorem addChecksum_of_zero_field (h : VHDHeader) (e : VHDExtraHeader)
    (hh : h.Checksum = ByteArr.zero 4) (he : e.Checksum = ByteArr.zero 4) :
    ((∀ counter : ℕ, counter < 512 → (h.encode.get? counter).isSome) ∧
      byteSum h.encode ≤ 512 * 255 ∧
      h.addChecksum = some { h with Checksum := be32Arr (2 ^ 32 - 1 - byteSum h.encode) } ∧
      byteSum h.encode
        = byteSum ({ h with Checksum := ByteArr.zero 4 } : VHDHeader).encode) ∧
    ((∀ counter : ℕ, counter < 1024 → (e.encode.get? counter).isSome) ∧
      byteSum e.encode ≤ 1024 * 255 ∧
      e.addChecksum = some { e with Checksum := be32Arr (2 ^ 32 - 1 - byteSum e.encode) } ∧
      byteSum e.encode
        = byteSum ({ e with Checksum := ByteArr.zero 4 } : VHDExtraHeader).encode) := by
  constructor
  · have hle := byteSum_le h.encode
    rw [h.length_encode] at hle
    refine ⟨?_, by omega, ?_, ?_⟩
    · intro counter hc
      rw [List.get?_eq_get (by rw [h.length_encode]; exact hc)]
      rfl
    · rw [h.addChecksum_eq, complement32_eq _ h.byteSum_encode_lt]
    · rw [h.byteSum_encode_split, hh, byteSum_zero, Nat.add_zero]
  · have hle := byteSum_le e.encode
    rw [e.length_encode_extra] at hle
    refine ⟨?_, by omega, ?_, ?_⟩
    · intro counter hc
      rw [List.get?_eq_get (by rw [e.length_encode_extra]; exact hc)]
      rfl
    · rw [e.addChecksum_eq_extra, complement32_eq _ e.byteSum_encode_lt_extra]
    · rw [e.byteSum_encode_split_extra, he, byteSum_zero, Nat.add_zero]

/-- Witness of claim C6 on the zero-valued structures. -/
theorem addChecksum_of_zero_field_witness :
    VHDHeader.zero.Checksum = ByteArr.zero 4 ∧ VHDExtraHeader.zero.Checksum = ByteArr.zero 4 ∧
    ((∀ counter : ℕ, counter < 512 → (VHDHeader.zero.encode.get? counter).isSome) ∧
      byteSum VHDHeader.zero.encode ≤ 512 * 255 ∧
      VHDHeader.zero.addChecksum
        = some { VHDHeader.zero with
            Checksum := be32Arr (2 ^ 32 - 1 - byteSum VHDHeader.zero.encode) } ∧
      byteSum VHDHeader.zero.encode
        = byteSum ({ VHDHeader.zero with Checksum := ByteArr.zero 4 } : VHDHeader).encode) ∧
    ((∀ counter : ℕ, counter < 1024 → (VHDExtraHeader.zero.encode.get? counter).isSome) ∧
      byteSum VHDExtraHeader.zero.encode ≤ 1024 * 255 ∧
      VHDExtraHeader.zero.addChecksum
        = some { VHDExtraHeader.zero with
            Checksum := be32Arr (2 ^ 32 - 1 - byteSum VHDExtraHeader.zero.encode) } ∧
      byteSum VHDExtraHeader.zero.encode
        = byteSum ({ VHDExtraHeader.zero with
            Checksum := ByteArr.zero 4 } : VHDExtraHeader).encode) :=
  ⟨rfl, rfl, addChecksum_of_zero_field VHDHeader.zero VHDExtraHeader.zero rfl rfl⟩

/-! ### CreateSparseVHD -/

theorem hexToField_cookie :
    hexToField VHD_COOKIE VHDHeader.zero.Cookie
      = some ⟨[0x63, 0x6f, 0x6e, 0x65, 0x63, 0x74, 0x69, 0x78], rfl⟩ := by decide

theorem hexToField_features :
    hexToField "00000002" VHDHeader.zero.Features = some ⟨[0, 0, 0, 2], rfl⟩ := by decide

theorem hexToField_fileFormatVersion :
    hexToField "00010000" VHDHeader.zero.FileFormatVersion = some ⟨[0, 1, 0, 0], rfl⟩ := by
  decide

theorem hexToField_dataOffset :
    hexToField "0000000000000200" VHDHeader.zero.DataOffset
      = some ⟨[0, 0, 0, 0, 0, 0, 2, 0], rfl⟩ := by decide

theorem hexToField_creatorApplication :
    hexToField VHD_CREATOR_APP VHDHeader.zero.CreatorApplication
      = some ⟨[0x67, 0x6f, 0x2d, 0x76], rfl⟩ := by decide

theorem hexToField_creatorHostOS :
    hexToField VHD_CREATOR_HOST_OS VHDHeader.zero.CreatorHostOS
      = some ⟨[0x57, 0x69, 0x32, 0x6b], rfl⟩ := by decide

theorem hexToField_diskType :
    hexToField "00000003" VHDHeader.zero.DiskType = some ⟨[0, 0, 0, 3], rfl⟩ := by decide

theorem hexToField_checksum :
    hexToField "00000000" VHDHeader.zero.Checksum = some (ByteArr.zero 4) := by decide

theorem hexToField_dynCookie :
    hexToField VHD_DYN_COOKIE VHDExtraHeader.zero.Cookie
      = some ⟨[0x63, 0x78, 0x73, 0x70, 0x61, 0x72, 0x73, 0x65], rfl⟩ := by decide

theorem hexToField_dynDataOffset :
    hexToField "ffffffffffffffff" VHDExtraHeader.zero.DataOffset
      = some ⟨[255, 255, 255, 255, 255, 255, 255, 255], rfl⟩ := by decide

theorem hexToField_headerVersion :
    hexToField "00010000" VHDExtraHeader.zero.HeaderVersion = some ⟨[0, 1, 0, 0], rfl⟩ := by
  decide

/-- The bind of the Option monad on a value that is present. -/
theorem some_bind_eq {α β : Type} (a : α) (f : α → Option β) : (some a >>= f) = f a := by
  cases h : f a <;> simp [h]

/-- The primary header of CreateSparseVHD is the checksummed form of a header whose
Checksum field is zero and whose size fields hold the size. -/
theorem CreateSparseVHD.header_eq (size : ℕ) (now : ℤ) (uuidBytes : ByteArr 16) :
    ∃ h0 : VHDHeader, h0.Checksum = ByteArr.zero 4 ∧ h0.OriginalSize = be64Arr size ∧
      h0.CurrentSize = be64Arr size ∧
      CreateSparseVHD.header size now uuidBytes = h0.addChecksum := by
  unfold CreateSparseVHD.header
  simp only [hexToField_cookie, hexToField_features, hexToField_fileFormatVersion,
    hexToField_dataOffset, hexToField_creatorApplication, hexToField_creatorHostOS,
    hexToField_diskType, hexToField_checksum, some_bind_eq, copyInto_beBytes64]
  exact ⟨_, rfl, rfl, rfl, rfl⟩

/-- The sparse header of CreateSparseVHD is the checksummed form of a header whose Checksum
field is zero and whose MaxTableEntries field holds uint32(size / VHD_BLOCK_SIZE). -/
theorem CreateSparseVHD.header2_eq (size : ℕ) :
    ∃ e0 : VHDExtraHeader, e0.Checksum = ByteArr.zero 4 ∧
      e0.MaxTableEntries = be32Arr (uint32 (size / VHD_BLOCK_SIZE)) ∧
      CreateSparseVHD.header2 size = e0.addChecksum := by
  unfold CreateSparseVHD.header2
  simp only [hexToField_dynCookie, hexToField_dynDataOffset, hexToField_headerVersion,
    some_bind_eq, copyInto_beBytes32]
  exact ⟨_, rfl, rfl, rfl⟩

theorem length_writeLoop (chunk : List Byte) (n : ℕ) :
    (writeLoop chunk n).length = chunk.length * n := by
  induction n with
  | zero => rfl
  | succ n ih => simp only [writeLoop, List.length_append, ih]; ring

theorem writeLoop_replicate (b : Byte) (k n : ℕ) :
    writeLoop (List.replicate k b) n = List.replicate (k * n) b := by
  induction n with
  | zero => rfl
  | succ n ih =>
    simp only [writeLoop, ih, Nat.mul_succ]
    rw [Nat.add_comm, List.replicate_add]

/-- Shape of the stream written by CreateSparseVHD: with hdr and ext the two checksummed
structures and m = uint32(size / VHD_BLOCK_SIZE), it is hdr, ext, m entries FF FF FF FF,
uint32(1536 - m) entries 00 00 00 00, and hdr again. -/
theorem CreateSparseVHD_eq (size : ℕ) (now : ℤ) (uuidBytes : ByteArr 16) :
    ∃ (h0 : VHDHeader) (e0 : VHDExtraHeader),
      h0.Checksum = ByteArr.zero 4 ∧ e0.Checksum = ByteArr.zero 4 ∧
      h0.OriginalSize = be64Arr size ∧ h0.CurrentSize = be64Arr size ∧
      e0.MaxTableEntries = be32Arr (uint32 (size / VHD_BLOCK_SIZE)) ∧
      CreateSparseVHD size now uuidBytes = some
        (({ h0 with Checksum := be32Arr (complement32 (byteSum h0.encode)) } : VHDHeader).encode
          ++ (({ e0 with Checksum := be32Arr (complement32 (byteSum e0.encode)) }
                : VHDExtraHeader).encode
          ++ (writeLoop (List.replicate 4 0xff) (uint32 (size / VHD_BLOCK_SIZE))
          ++ (writeLoop (List.replicate 4 0x0)
                (uint32 (1536 + 2 ^ 32 - uint32 (size / VHD_BLOCK_SIZE)))
          ++ ({ h0 with Checksum := be32Arr (complement32 (byteSum h0.encode)) }
                : VHDHeader).encode)))) := by
  obtain ⟨h0, hc, ho, hcur, hh⟩ := CreateSparseVHD.header_eq size now uuidBytes
  obtain ⟨e0, ec, em, he⟩ := CreateSparseVHD.header2_eq size
  refine ⟨h0, e0, hc, ec, ho, hcur, em, ?_⟩
  unfold CreateSparseVHD
  rw [hh, he, h0.addChecksum_eq, e0.addChecksum_eq_extra]
  simp only [some_bind_eq, List.nil_append, List.append_assoc]
  rfl

theorem complement32_lt (s : ℕ) : complement32 s < 2 ^ 32 := by
  unfold complement32 uint32OfInt
  omega

theorem byteSum_replicate_zero (n : ℕ) : byteSum (List.replicate n (0 : Byte)) = 0 :=
  byteSum_zero n

/-- A buffer made of a part pre, the big-endian complement of the byte sum of the buffer
with four zero bytes in that place, and a part post, passes the checksum check at the
offset of the four bytes. -/
theorem storedChecksumValid_of_split (pre post : List Byte) (off : ℕ)
    (hoff : pre.length = off) :
    storedChecksumValid
      (pre ++ (beBytes32 (complement32 (byteSum (pre ++ (List.replicate 4 0 ++ post)))) ++ post))
      off := by
  generalize hc : beBytes32 (complement32 (byteSum (pre ++ (List.replicate 4 0 ++ post)))) = cks
  have h4 : cks.length = 4 := by rw [← hc]; rfl
  have hoff4 : (pre ++ cks).length = off + 4 := by rw [List.length_append, hoff, h4]
  have e1 : (pre ++ (cks ++ post)).take off = pre := List.take_left' hoff
  have e2 : ((pre ++ (cks ++ post)).drop off).take 4 = cks := by
    rw [List.drop_left' hoff, List.take_left' h4]
  have e3 : (pre ++ (cks ++ post)).drop (off + 4) = post := by
    rw [← List.append_assoc, List.drop_left' hoff4]
  unfold storedChecksumValid
  rw [e1, e2, e3, ← hc, beValue_beBytes32 _ (complement32_lt _), List.append_assoc]

theorem VHDHeader.storedChecksumValid_encode (h0 : VHDHeader)
    (hz : h0.Checksum = ByteArr.zero 4) :
    storedChecksumValid
      ({ h0 with Checksum := be32Arr (complement32 (byteSum h0.encode)) } : VHDHeader).encode
      64 := by
  have hpre : (h0.Cookie.val ++ (h0.Features.val ++ (h0.FileFormatVersion.val ++
      (h0.DataOffset.val ++ (h0.Timestamp.val ++ (h0.CreatorApplication.val ++
      (h0.CreatorVersion.val ++ (h0.CreatorHostOS.val ++ (h0.OriginalSize.val ++
      (h0.CurrentSize.val ++ (h0.DiskGeometry.val ++ h0.DiskType.val))))))))))).length
      = 64 := by
    simp only [List.length_append, ByteArr.length_val]
  have h := storedChecksumValid_of_split _
    (h0.UniqueId.val ++ (h0.SavedState.val ++ h0.Reserved.val)) 64 hpre
  have he : h0.encode = (h0.Cookie.val ++ (h0.Features.val ++ (h0.FileFormatVersion.val ++
      (h0.DataOffset.val ++ (h0.Timestamp.val ++ (h0.CreatorApplication.val ++
      (h0.CreatorVersion.val ++ (h0.CreatorHostOS.val ++ (h0.OriginalSize.val ++
      (h0.CurrentSize.val ++ (h0.DiskGeometry.val ++ h0.DiskType.val)))))))))))
      ++ (List.replicate 4 0 ++ (h0.UniqueId.val ++ (h0.SavedState.val ++ h0.Reserved.val))) := by
    simp only [VHDHeader.encode, hz, ByteArr.zero, List.append_assoc]
  rw [← he] at h
  simpa only [VHDHeader.encode, be32Arr, List.append_assoc] using h

theorem VHDExtraHeader.storedChecksumValid_encode_extra (e0 : VHDExtraHeader)
    (hz : e0.Checksum = ByteArr.zero 4) :
    storedChecksumValid
      ({ e0 with Checksum := be32Arr (complement32 (byteSum e0.encode)) }
        : VHDExtraHeader).encode 36 := by
  have hpre : (e0.Cookie.val ++ (e0.DataOffset.val ++ (e0.TableOffset.val ++
      (e0.HeaderVersion.val ++ (e0.MaxTableEntries.val ++ e0.BlockSize.val))))).length
      = 36 := by
    simp only [List.length_append, ByteArr.length_val]
  have h := storedChecksumValid_of_split _
    (e0.ParentUUID.val ++ (e0.ParentTimestamp.val ++ (e0.Reserved.val ++
      (e0.ParentUnicodeName.val ++ (e0.ParentLocatorEntry1.val ++
      (e0.ParentLocatorEntry2.val ++ (e0.ParentLocatorEntry3.val ++
      (e0.ParentLocatorEntry4.val ++ (e0.ParentLocatorEntry5.val ++
      (e0.ParentLocatorEntry6.val ++ (e0.ParentLocatorEntry7.val ++
      (e0.ParentLocatorEntry8.val ++ e0.Reserved2.val)))))))))))) 36 hpre
  have he : e0.encode = (e0.Cookie.val ++ (e0.DataOffset.val ++ (e0.TableOffset.val ++
      (e0.HeaderVersion.val ++ (e0.MaxTableEntries.val ++ e0.BlockSize.val)))))
      ++ (List.replicate 4 0 ++ (e0.ParentUUID.val ++ (e0.ParentTimestamp.val ++
      (e0.Reserved.val ++
      (e0.ParentUnicodeName.val ++ (e0.ParentLocatorEntry1.val ++
      (e0.ParentLocatorEntry2.val ++ (e0.ParentLocatorEntry3.val ++
      (e0.ParentLocatorEntry4.val ++ (e0.ParentLocatorEntry5.val ++
      (e0.ParentLocatorEntry6.val ++ (e0.ParentLocatorEntry7.val ++
      (e0.ParentLocatorEntry8.val ++ e0.Reserved2.val))))))))))))) := by
    simp only [VHDExtraHeader.encode, hz, ByteArr.zero, List.append_assoc]
  rw [← he] at h
  simpa only [VHDExtraHeader.encode, be32Arr, List.append_assoc] using h

/-- The three regions of a stream that starts with a 512-byte part and a 1024-byte part and
ends with the first part again. -/
theorem stream_regions (H E B : List Byte) (hH : H.length = 512) (hE : E.length = 1024) :
    (H ++ (E ++ (B ++ H))).take 512 = H ∧
      ((H ++ (E ++ (B ++ H))).drop 512).take 1024 = E ∧
      (H ++ (E ++ (B ++ H))).drop ((H ++ (E ++ (B ++ H))).length - 512) = H := by
  refine ⟨List.take_left' hH, ?_, ?_⟩
  · rw [List.drop_left' hH, List.take_left' hE]
  · have hl : (H ++ (E ++ (B ++ H))).length - 512 = (H ++ (E ++ B)).length := by
      simp only [List.length_append]; omega
    rw [hl]
    have : H ++ (E ++ (B ++ H)) = (H ++ (E ++ B)) ++ H := by simp only [List.append_assoc]
    rw [this, List.drop_left' rfl]

/-- Claim C7: for every size, clock value and 16 random bytes, CreateSparseVHD writes a
stream whose first 512 bytes pass the checksum check with the field at bytes 64..67, and
whose bytes 512..1535 pass it with the field at bytes 36..39 of that region (548..551 of
the stream). -/
theorem CreateSparseVHD_checksums_valid (size : ℕ) (now : ℤ) (uuidBytes : ByteArr 16) :
    ∃ out : List Byte, CreateSparseVHD size now uuidBytes = some out ∧
      storedChecksumValid (out.take 512) 64 ∧
      storedChecksumValid ((out.drop 512).take 1024) 36 := by
  obtain ⟨h0, e0, hc, ec, -, -, -, hout⟩ := CreateSparseVHD_eq size now uuidBytes
  refine ⟨_, hout, ?_, ?_⟩
  · rw [← List.append_assoc (writeLoop _ _),
      (stream_regions _ _ _ (VHDHeader.length_encode _) (VHDExtraHeader.length_encode_extra _)).1]
    exact h0.storedChecksumValid_encode hc
  · rw [← List.append_assoc (writeLoop _ _),
      (stream_regions _ _ _ (VHDHeader.length_encode _) (VHDExtraHeader.length_encode_extra _)).2.1]
    exact e0.storedChecksumValid_encode_extra ec

/-- Claim C8: for every size S that is a multiple of the block size (2 MiB) and at most
65535 * 16 * 255 * 512 bytes, the stream written by CreateSparseVHD decodes to a header
whose CurrentSize and OriginalSize fields are the big-endian 64-bit value S, and to a
sparse header whose MaxTableEntries field is the big-endian 32-bit value S / 2 MiB. -/
theorem CreateSparseVHD_size_fields (size : ℕ) (now : ℤ) (uuidBytes : ByteArr 16)
    (hmod : size % VHD_BLOCK_SIZE = 0) (hmax : size ≤ 65535 * 16 * 255 * 512) :
    ∃ out : List Byte, CreateSparseVHD size now uuidBytes = some out ∧
      (decodeVHDHeader (out.take 512)).CurrentSize = be64Arr size ∧
      (decodeVHDHeader (out.take 512)).OriginalSize = be64Arr size ∧
      beValue (decodeVHDHeader (out.take 512)).CurrentSize.val = size ∧
      beValue (decodeVHDHeader (out.take 512)).OriginalSize.val = size ∧
      (decodeVHDExtraHeader ((out.drop 512).take 1024)).MaxTableEntries
        = be32Arr (size / VHD_BLOCK_SIZE) ∧
      beValue (decodeVHDExtraHeader ((out.drop 512).take 1024)).MaxTableEntries.val
        = size / VHD_BLOCK_SIZE ∧
      size / VHD_BLOCK_SIZE * VHD_BLOCK_SIZE = size := by
  obtain ⟨h0, e0, -, -, ho, hcur, em, hout⟩ := CreateSparseVHD_eq size now uuidBytes
  have hm : size / VHD_BLOCK_SIZE < 2 ^ 32 := by
    unfold VHD_BLOCK_SIZE; omega
  have hu : uint32 (size / VHD_BLOCK_SIZE) = size / VHD_BLOCK_SIZE := Nat.mod_eq_of_lt hm
  have h64 : beValue (be64Arr size).val = size := beValue_beBytes64 size (by omega)
  have h32 : beValue (be32Arr (size / VHD_BLOCK_SIZE)).val = size / VHD_BLOCK_SIZE :=
    beValue_beBytes32 _ hm
  refine ⟨_, hout, ?_⟩
  rw [← List.append_assoc (writeLoop _ _),
    (stream_regions _ _ _ (VHDHeader.length_encode _) (VHDExtraHeader.length_encode_extra _)).1,
    (stream_regions _ _ _ (VHDHeader.length_encode _) (VHDExtraHeader.length_encode_extra _)).2.1,
    decodeVHDHeader_encode, decodeVHDExtraHeader_encode]
  simp only [hcur, ho, em, hu, h64, h32, true_and]
  exact Nat.div_mul_cancel (Nat.dvd_of_mod_eq_zero hmod)

/-- Witness of claim C8: a disk of 4 MiB. -/
theorem CreateSparseVHD_size_fields_witness :
    4194304 % VHD_BLOCK_SIZE = 0 ∧ 4194304 ≤ 65535 * 16 * 255 * 512 ∧
    ∃ out : List Byte, CreateSparseVHD 4194304 0 (ByteArr.zero 16) = some out ∧
      (decodeVHDHeader (out.take 512)).CurrentSize = be64Arr 4194304 ∧
      (decodeVHDHeader (out.take 512)).OriginalSize = be64Arr 4194304 ∧
      beValue (decodeVHDHeader (out.take 512)).CurrentSize.val = 4194304 ∧
      beValue (decodeVHDHeader (out.take 512)).OriginalSize.val = 4194304 ∧
      (decodeVHDExtraHeader ((out.drop 512).take 1024)).MaxTableEntries
        = be32Arr (4194304 / VHD_BLOCK_SIZE) ∧
      beValue (decodeVHDExtraHeader ((out.drop 512).take 1024)).MaxTableEntries.val
        = 4194304 / VHD_BLOCK_SIZE ∧
      4194304 / VHD_BLOCK_SIZE * VHD_BLOCK_SIZE = 4194304 :=
  ⟨by decide, by decide,
    CreateSparseVHD_size_fields 4194304 0 (ByteArr.zero 16) (by decide) (by decide)⟩

/-- Length of the stream written by CreateSparseVHD, with m = uint32(size / VHD_BLOCK_SIZE):
the two structures, m entries, uint32(1536 - m) entries and the footer. -/
theorem CreateSparseVHD_length (size : ℕ) (now : ℤ) (uuidBytes : ByteArr 16) :
    ∃ out : List Byte, CreateSparseVHD size now uuidBytes = some out ∧
      out.length = 512 + 1024 + 4 * uint32 (size / VHD_BLOCK_SIZE)
        + 4 * uint32 (1536 + 2 ^ 32 - uint32 (size / VHD_BLOCK_SIZE)) + 512 := by
  obtain ⟨h0, e0, -, -, -, -, -, hout⟩ := CreateSparseVHD_eq size now uuidBytes
  refine ⟨_, hout, ?_⟩
  simp only [List.length_append, VHDHeader.length_encode, VHDExtraHeader.length_encode_extra,
    length_writeLoop, List.length_replicate]
  omega

/-- Claim C9, refuted as stated: for the size 1537 * 2 MiB the stream written by
CreateSparseVHD has 512 + 1024 + 4 * 1537 + 4 * (2^32 - 1) + 512 bytes, not 8192: the
padding count 1536 - 1537 wraps around in uint32. -/
theorem CreateSparseVHD_length_counterexample :
    ∃ out : List Byte,
      CreateSparseVHD (1537 * 2097152) 0 (ByteArr.zero 16) = some out ∧
      out.length = 17179877376 ∧ out.length ≠ 8192 := by
  obtain ⟨out, hout, hlen⟩ := CreateSparseVHD_length (1537 * 2097152) 0 (ByteArr.zero 16)
  have hm : uint32 (1537 * 2097152 / VHD_BLOCK_SIZE) = 1537 := by decide
  rw [hm] at hlen
  have hp : uint32 (1536 + 2 ^ 32 - 1537) = 4294967295 := by decide
  rw [hp] at hlen
  norm_num at hlen
  exact ⟨out, hout, hlen, by rw [hlen]; decide⟩

/-- Claim C9, amended: for every size with uint32(size / 2 MiB) at most 1536 (the
MaxTableEntries value m), the stream written by CreateSparseVHD is exactly 8192 bytes: the
512-byte header, the 1024-byte sparse header, a BAT of exactly 1536 four-byte entries, of
which the first m are FF FF FF FF and the remaining 1536 - m are zero, and the 512-byte
footer. -/
theorem CreateSparseVHD_layout (size : ℕ) (now : ℤ) (uuidBytes : ByteArr 16)
    (hm : uint32 (size / VHD_BLOCK_SIZE) ≤ 1536) :
    ∃ (out hdr ext bat : List Byte), CreateSparseVHD size now uuidBytes = some out ∧
      out = hdr ++ (ext ++ (bat ++ hdr)) ∧
      hdr.length = 512 ∧ ext.length = 1024 ∧ bat.length = 4 * 1536 ∧
      bat = List.replicate (4 * uint32 (size / VHD_BLOCK_SIZE)) 0xff
        ++ List.replicate (4 * (1536 - uint32 (size / VHD_BLOCK_SIZE))) 0 ∧
      out.length = 8192 ∧ out.length = 7680 + 512 := by
  obtain ⟨h0, e0, -, -, -, -, -, hout⟩ := CreateSparseVHD_eq size now uuidBytes
  have hpad : uint32 (1536 + 2 ^ 32 - uint32 (size / VHD_BLOCK_SIZE))
      = 1536 - uint32 (size / VHD_BLOCK_SIZE) := by
    generalize uint32 (size / VHD_BLOCK_SIZE) = m at hm
    unfold uint32
    omega
  rw [hpad, writeLoop_replicate, writeLoop_replicate, ← List.append_assoc (List.replicate _ _)]
    at hout
  refine ⟨_, _, _, _, hout, rfl, VHDHeader.length_encode _, VHDExtraHeader.length_encode_extra _,
    ?_, rfl, ?_, ?_⟩
  · simp only [List.length_append, List.length_replicate]; omega
  · simp only [List.length_append, List.length_replicate, VHDHeader.length_encode,
      VHDExtraHeader.length_encode_extra]; omega
  · simp only [List.length_append, List.length_replicate, VHDHeader.length_encode,
      VHDExtraHeader.length_encode_extra]; omega

/-- Witness of the amended claim C9: a disk of 4 MiB, with two live BAT entries. -/
theorem CreateSparseVHD_layout_witness :
    uint32 (4194304 / VHD_BLOCK_SIZE) ≤ 1536 ∧
    ∃ (out hdr ext bat : List Byte), CreateSparseVHD 4194304 0 (ByteArr.zero 16) = some out ∧
      out = hdr ++ (ext ++ (bat ++ hdr)) ∧
      hdr.length = 512 ∧ ext.length = 1024 ∧ bat.length = 4 * 1536 ∧
      bat = List.replicate (4 * uint32 (4194304 / VHD_BLOCK_SIZE)) 0xff
        ++ List.replicate (4 * (1536 - uint32 (4194304 / VHD_BLOCK_SIZE))) 0 ∧
      out.length = 8192 ∧ out.length = 7680 + 512 :=
  ⟨by decide, CreateSparseVHD_layout 4194304 0 (ByteArr.zero 16) (by decide)⟩

/-- Claim C10: for every size, clock value and random bytes, the last 512 bytes of the
stream written by CreateSparseVHD equal its first 512 bytes. -/
theorem CreateSparseVHD_footer_eq_header (size : ℕ) (now : ℤ) (uuidBytes : ByteArr 16) :
    ∃ out : List Byte, CreateSparseVHD size now uuidBytes = some out ∧
      1024 ≤ out.length ∧ (out.take 512).length = 512 ∧
      out.drop (out.length - 512) = out.take 512 := by
  obtain ⟨h0, e0, -, -, -, -, -, hout⟩ := CreateSparseVHD_eq size now uuidBytes
  refine ⟨_, hout, ?_, ?_, ?_⟩
  · simp only [List.length_append, VHDHeader.length_encode, VHDExtraHeader.length_encode_extra]
    omega
  · rw [← List.append_assoc (writeLoop _ _),
      (stream_regions _ _ _ (VHDHeader.length_encode _) (VHDExtraHeader.length_encode_extra _)).1]
    exact VHDHeader.length_encode _
  · rw [← List.append_assoc (writeLoop _ _),
      (stream_regions _ _ _ (VHDHeader.length_encode _) (VHDExtraHeader.length_encode_extra _)).2.2,
      (stream_regions _ _ _ (VHDHeader.length_encode _) (VHDExtraHeader.length_encode_extra _)).1]

/-! ### Disk type, timestamp and getMaxTableEntries -/

/-- The switch of DiskTypeStr as a table lookup on the value of the byte. -/
theorem VHDHeader.DiskTypeStr_eq_lookup (h : VHDHeader) :
    h.DiskTypeStr = diskTypeNames.get? (h.DiskType.get 3 (by decide)).val := by
  unfold VHDHeader.DiskTypeStr
  generalize (h.DiskType.get 3 (by decide)).val = v
  rcases v with _ | _ | _ | _ | _ | _ | _ | v <;> rfl

/-- The table of names has an entry exactly for the indices 0 to 6. -/
theorem diskTypeNames_get?_eq_none (v : ℕ) : diskTypeNames.get? v = none ↔ 6 < v := by
  rw [List.get?_eq_none]
  show 7 ≤ v ↔ 6 < v
  omega

/-- The last byte of a four-byte field is its big-endian value modulo 256. -/
theorem ByteArr.get_three_eq_mod (a : ByteArr 4) :
    (a.get 3 (by decide)).val = beValue a.val % 256 := by
  obtain ⟨l, hl⟩ := a
  match l, hl with
  | [b0, b1, b2, b3], _ =>
    have := b3.isLt
    simp only [ByteArr.get, beValue, List.foldl_cons, List.foldl_nil, List.get]
    omega

/-- Claim C14: DiskTypeStr panics exactly when the byte DiskType[3] is greater than 6, and
for the byte values 0 to 6 it returns the names None, Deprecated, Fixed, Dynamic,
Differential, Reserved, Reserved, in this order. -/
theorem DiskTypeStr_by_type_byte (h : VHDHeader) :
    (h.DiskTypeStr = none ↔ 6 < (h.DiskType.get 3 (by decide)).val) ∧
      h.DiskTypeStr
        = ["None", "Deprecated", "Fixed", "Dynamic", "Differential", "Reserved",
            "Reserved"].get? (h.DiskType.get 3 (by decide)).val := by
  refine ⟨?_, h.DiskTypeStr_eq_lookup⟩
  rw [h.DiskTypeStr_eq_lookup]
  exact diskTypeNames_get?_eq_none _

/-- Claim C16, refuted as stated: the header whose disk-type field is 00 00 01 03 has the
field value 259, outside 0..6, and DiskTypeStr returns the name Dynamic for it. -/
theorem DiskTypeStr_wide_value_counterexample :
    beValue headerWithWideDiskType.DiskType.val = 259 ∧ ¬ (259 ≤ 6) ∧
      headerWithWideDiskType.DiskTypeStr = some "Dynamic" := by
  refine ⟨by decide, by decide, by decide⟩

/-- Claim C16, amended: with v the big-endian value of the four-byte disk-type field,
DiskTypeStr panics exactly when v modulo 256 (the last byte of the field) is greater than 6
and otherwise returns the name of v modulo 256; the three leading bytes are not examined. -/
theorem DiskTypeStr_by_field_value (h : VHDHeader) :
    (h.DiskTypeStr = none ↔ 6 < beValue h.DiskType.val % 256) ∧
      h.DiskTypeStr
        = ["None", "Deprecated", "Fixed", "Dynamic", "Differential", "Reserved",
            "Reserved"].get? (beValue h.DiskType.val % 256) := by
  rw [← h.DiskType.get_three_eq_mod]
  refine ⟨?_, h.DiskTypeStr_eq_lookup⟩
  rw [h.DiskTypeStr_eq_lookup]
  exact diskTypeNames_get?_eq_none _

/-- TimestampTime returns the sum of 946684800 and the stored value modulo 2^32. -/
theorem VHDHeader.TimestampTime_eq (h : VHDHeader) :
    h.TimestampTime = (((946684800 + beValue h.Timestamp.val) % 2 ^ 32 : ℕ) : ℤ) := rfl

/-- Claim C13 fails on the code: for the stored timestamp FF FF FF FF (t = 4294967295)
TimestampTime returns the Unix second 946684799, while 946684800 + t is 5241652095. -/
theorem TimestampTime_wraps_at_last_timestamp :
    beValue headerWithLastTimestamp.Timestamp.val = 4294967295 ∧
      headerWithLastTimestamp.TimestampTime = 946684799 ∧
      headerWithLastTimestamp.TimestampTime ≠ 946684800 + 4294967295 := by
  refine ⟨by decide, by decide, by decide⟩

/-- Claim C20 fails on the code: for a disk of 4 MiB getMaxTableEntries returns
8796093022208 (the size multiplied by 2097152), while the disk has 2 blocks of 2 MiB, the
value CreateSparseVHD computes as uint32(size / VHD_BLOCK_SIZE). -/
theorem getMaxTableEntries_multiplies :
    getMaxTableEntries 4194304 = 8796093022208 ∧ 4194304 / 2097152 = 2 ∧
      uint32 (4194304 / VHD_BLOCK_SIZE) = 2 ∧
      getMaxTableEntries 4194304 ≠ 4194304 / 2097152 := by
  refine ⟨by decide, by decide, by decide, by decide⟩

/-! ### utf16BytesToString -/

theorem utf16Units_cons_cons (o : ByteOrder) (b0 b1 : Byte) (rest : List Byte) :
    utf16Units o (b0 :: b1 :: rest)
      = unit16 o b0 b1 :: utf16Units o rest := by
  simp [utf16Units]

theorem ByteOrder.Uint16_cons_cons (o : ByteOrder) (b0 b1 : Byte) (rest : List Byte) :
    o.Uint16 (b0 :: b1 :: rest)
      = some (unit16 o b0 b1) := by
  cases o <;> simp [ByteOrder.Uint16, unit16, Nat.add_comm]

/-- Number of units of a buffer: one for every complete pair of bytes. -/
theorem length_utf16Units (o : ByteOrder) :
    ∀ b : List Byte, (utf16Units o b).length = b.length / 2
  | [] => by simp [utf16Units]
  | [_] => by simp [utf16Units]
  | b0 :: b1 :: rest => by
    rw [utf16Units_cons_cons, List.length_cons, length_utf16Units o rest, List.length_cons,
      List.length_cons]
    omega

/-- A dangling byte after complete pairs adds no unit. -/
theorem utf16Units_append_singleton (o : ByteOrder) (x : Byte) :
    ∀ b : List Byte, b.length % 2 = 0 → utf16Units o (b ++ [x]) = utf16Units o b
  | [], _ => by simp [utf16Units]
  | [_], h => by simp at h
  | b0 :: b1 :: rest, h => by
    have hr : rest.length % 2 = 0 := by
      simp only [List.length_cons] at h; omega
    rw [List.cons_append, List.cons_append, utf16Units_cons_cons, utf16Units_cons_cons,
      utf16Units_append_singleton o x rest hr]

/-- A buffer of fewer than two bytes has no unit. -/
theorem utf16Units_short (o : ByteOrder) (b : List Byte) (h : b.length < 2) :
    utf16Units o b = [] := by
  match b, h with
  | [], _ => simp [utf16Units]
  | [_], _ => simp [utf16Units]

/-- The loop of utf16BytesToString from index 2k, on a slice that holds k units followed by
m zeros: it stores the remaining units over the first zeros and does not panic. -/
theorem utf16BytesToString.loop_eq (b : List Byte) (o : ByteOrder) :
    ∀ (fuel k m : ℕ) (U : List ℕ), U.length = k → b.length - 2 * k ≤ fuel →
      (b.length - 2 * k) / 2 ≤ m →
      utf16BytesToString.loop b o fuel (2 * k) (U ++ List.replicate m 0)
        = some (U ++ utf16Units o (b.drop (2 * k))
            ++ List.replicate (m - (b.length - 2 * k) / 2) 0) := by
  intro fuel
  induction fuel with
  | zero =>
    intro k m U hU hfuel hm
    have hc : ¬ (2 * k + (2 - 1) < b.length) := by omega
    rw [utf16BytesToString.loop, if_neg hc]
    have hs : utf16Units o (b.drop (2 * k)) = [] :=
      utf16Units_short o _ (by rw [List.length_drop]; omega)
    have h0 : (b.length - 2 * k) / 2 = 0 := by omega
    rw [hs, h0, List.append_nil, Nat.sub_zero]
  | succ fuel ih =>
    intro k m U hU hfuel hm
    by_cases hc : 2 * k + (2 - 1) < b.length
    · rw [utf16BytesToString.loop, if_pos hc]
      obtain ⟨b0, b1, rest, hd⟩ : ∃ b0 b1 rest, b.drop (2 * k) = b0 :: b1 :: rest := by
        have hl : 2 ≤ (b.drop (2 * k)).length := by rw [List.length_drop]; omega
        match hb : b.drop (2 * k), hl with
        | b0 :: b1 :: rest, _ => exact ⟨b0, b1, rest, rfl⟩
      have hrest : b.drop (2 * (k + 1)) = rest := by
        have : b.drop (2 * (k + 1)) = (b.drop (2 * k)).drop 2 := by
          rw [List.drop_drop, show 2 * (k + 1) = 2 * k + 2 from by ring]
        rw [this, hd]; rfl
      have hlen : (b.length - 2 * k) / 2 = (b.length - 2 * (k + 1)) / 2 + 1 := by omega
      obtain ⟨m1, rfl⟩ : ∃ m1, m = m1 + 1 := ⟨m - 1, by omega⟩
      have hk2 : 2 * k / 2 = k := by omega
      simp only [hd, ByteOrder.Uint16_cons_cons, hk2]
      have hlt : k < (U ++ List.replicate (m1 + 1) 0).length := by
        rw [List.length_append, List.length_replicate]; omega
      rw [if_pos hlt]
      have hset : (U ++ List.replicate (m1 + 1) 0).set k (unit16 o b0 b1)
          = (U ++ [unit16 o b0 b1]) ++ List.replicate m1 0 := by
        rw [List.set_append_right _ _ (by omega), hU, Nat.sub_self, List.replicate_succ,
          List.set_cons_zero, List.append_assoc, List.singleton_append]
      have h2 : 2 * k + 2 = 2 * (k + 1) := by ring
      rw [hset, h2, ih (k + 1) m1 _ (by rw [List.length_append, hU]; rfl) (by omega)
        (by omega), hrest, utf16Units_cons_cons, hlen]
      simp only [List.append_assoc, List.singleton_append, Nat.add_sub_add_right]
    · rw [utf16BytesToString.loop, if_neg hc]
      have hs : utf16Units o (b.drop (2 * k)) = [] :=
        utf16Units_short o _ (by rw [List.length_drop]; omega)
      have h0 : (b.length - 2 * k) / 2 = 0 := by omega
      rw [hs, h0, List.append_nil, Nat.sub_zero]

/-- What utf16BytesToString returns: the decoding of the units of the complete byte pairs,
followed by the unit FFFD when the length is odd. It never panics. -/
theorem utf16BytesToString_eq (b : List Byte) (o : ByteOrder) :
    utf16BytesToString b o = some (stringOfRunes (utf16Decode
      (utf16Units o b ++ if b.length % 2 = 1 then [0xFFFD] else []))) := by
  unfold utf16BytesToString
  have h := utf16BytesToString.loop_eq b o b.length 0 ((b.length + (2 - 1)) / 2) []
    rfl (by omega) (by omega)
  simp only [Nat.mul_zero, List.nil_append, List.drop_zero, Nat.sub_zero] at h
  simp only [h]
  by_cases hodd : b.length % 2 = 1
  · have h1 : (b.length + (2 - 1)) / 2 - b.length / 2 = 1 := by omega
    rw [h1, if_pos hodd]
    have hl : (utf16Units o b ++ List.replicate 1 0).length = b.length / 2 + 1 := by
      rw [List.length_append, length_utf16Units, List.length_replicate]
    rw [if_pos (by rw [hl]; omega), hl, Nat.add_sub_cancel,
      List.set_append_right _ _ (by rw [length_utf16Units]), length_utf16Units, Nat.sub_self]
    rfl
  · have h1 : (b.length + (2 - 1)) / 2 - b.length / 2 = 0 := by omega
    rw [h1, if_neg hodd]
    have hl : (utf16Units o b ++ List.replicate 0 0).length = b.length / 2 := by
      rw [List.length_append, length_utf16Units, List.length_replicate, Nat.add_zero]
    rw [if_neg (by rw [hl]; omega)]
    rfl

/-- One step of utf16Decode on a unit that is not a surrogate. -/
theorem utf16Decode_cons_normal (r : ℕ) (rest : List ℕ) (h : r < 0xd800 ∨ 0xe000 ≤ r) :
    utf16Decode (r :: rest) = r :: utf16Decode rest := by
  cases rest with
  | nil => simp [utf16Decode, h]
  | cons r2 rest => rw [utf16Decode, if_pos h]

/-- One step of utf16Decode on a surrogate pair. -/
theorem utf16Decode_cons_pair (r r2 : ℕ) (rest : List ℕ) (h : ¬ (r < 0xd800 ∨ 0xe000 ≤ r))
    (hp : r < 0xdc00 ∧ 0xdc00 ≤ r2 ∧ r2 < 0xe000) :
    utf16Decode (r :: r2 :: rest)
      = ((r - 0xd800) * 1024 + (r2 - 0xdc00) + 0x10000) :: utf16Decode rest := by
  rw [utf16Decode, if_neg h, if_pos hp]

/-- One step of utf16Decode on a surrogate that does not start a pair. -/
theorem utf16Decode_cons_unpaired (r r2 : ℕ) (rest : List ℕ)
    (h : ¬ (r < 0xd800 ∨ 0xe000 ≤ r)) (hp : ¬ (r < 0xdc00 ∧ 0xdc00 ≤ r2 ∧ r2 < 0xe000)) :
    utf16Decode (r :: r2 :: rest) = 0xFFFD :: utf16Decode (r2 :: rest) := by
  rw [utf16Decode, if_neg h, if_neg hp]

/-- Decoding units that end with FFFD gives runes that end with FFFD: the unit FFFD is not
a surrogate, so it is never consumed as the second half of a pair. -/
theorem utf16Decode_append_replacement :
    ∀ U : List ℕ, ∃ R : List ℕ, utf16Decode (U ++ [0xFFFD]) = R ++ [0xFFFD]
  | [] => ⟨[], by
      rw [List.nil_append, utf16Decode_cons_normal _ _ (Or.inr (by norm_num))]; rfl⟩
  | [r] => by
    obtain ⟨R, hR⟩ := utf16Decode_append_replacement []
    rw [List.nil_append] at hR
    rw [List.singleton_append]
    by_cases h : r < 0xd800 ∨ 0xe000 ≤ r
    · exact ⟨r :: R, by rw [utf16Decode_cons_normal _ _ h, hR]; rfl⟩
    · exact ⟨0xFFFD :: R, by
        rw [utf16Decode_cons_unpaired _ _ _ h (by omega), hR]; rfl⟩
  | r :: r2 :: rest => by
    obtain ⟨R1, hR1⟩ := utf16Decode_append_replacement (r2 :: rest)
    obtain ⟨R2, hR2⟩ := utf16Decode_append_replacement rest
    rw [List.cons_append] at hR1
    rw [List.cons_append, List.cons_append]
    by_cases h : r < 0xd800 ∨ 0xe000 ≤ r
    · exact ⟨r :: R1, by rw [utf16Decode_cons_normal _ _ h, hR1]; rfl⟩
    · by_cases hp : r < 0xdc00 ∧ 0xdc00 ≤ r2 ∧ r2 < 0xe000
      · exact ⟨_ :: R2, by rw [utf16Decode_cons_pair _ _ _ h hp, hR2]; rfl⟩
      · exact ⟨0xFFFD :: R1, by rw [utf16Decode_cons_unpaired _ _ _ h hp, hR1]; rfl⟩

/-- Claim C17: for every byte sequence b of odd length and either byte order,
utf16BytesToString does not panic and returns the string of the UTF-16 decoding of the
floor(len(b)/2) units of the complete byte pairs of b followed by the unit FFFD; the last
character of the result is U+FFFD, and replacing the dangling last byte of b by any other
byte gives the same result. -/
theorem utf16BytesToString_odd_length (b : List Byte) (o : ByteOrder)
    (hodd : b.length % 2 = 1) :
    utf16BytesToString b o
        = some (stringOfRunes (utf16Decode (utf16Units o b ++ [0xFFFD]))) ∧
      (utf16Units o b).length = b.length / 2 ∧
      (stringOfRunes (utf16Decode (utf16Units o b ++ [0xFFFD]))).data.getLast?
        = some (Char.ofNat 0xFFFD) ∧
      ∀ x : Byte, utf16BytesToString (b.dropLast ++ [x]) o = utf16BytesToString b o := by
  refine ⟨?_, length_utf16Units o b, ?_, ?_⟩
  · rw [utf16BytesToString_eq, if_pos hodd]
  · obtain ⟨R, hR⟩ := utf16Decode_append_replacement (utf16Units o b)
    rw [hR]
    simp only [stringOfRunes, List.map_append, List.map_cons, List.map_nil,
      List.getLast?_concat]
    rfl
  · intro x
    have hne : b ≠ [] := by
      intro h; rw [h] at hodd; simp at hodd
    have hb : b = b.dropLast ++ [b.getLast hne] := (List.dropLast_append_getLast hne).symm
    have hdl : b.dropLast.length % 2 = 0 := by
      rw [List.length_dropLast]; omega
    have hlx : (b.dropLast ++ [x]).length % 2 = 1 := by
      rw [List.length_append, List.length_singleton]; omega
    rw [utf16BytesToString_eq, utf16BytesToString_eq, if_pos hodd, if_pos hlx,
      utf16Units_append_singleton o x _ hdl]
    conv_rhs => rw [hb, utf16Units_append_singleton o _ _ hdl]

/-- Witness of claim C17: the three bytes 00 41 07 in big-endian order. -/
theorem utf16BytesToString_odd_length_witness :
    ([0, 0x41, 7] : List Byte).length % 2 = 1 ∧
    (utf16BytesToString [0, 0x41, 7] ByteOrder.BigEndian
        = some (stringOfRunes
            (utf16Decode (utf16Units ByteOrder.BigEndian [0, 0x41, 7] ++ [0xFFFD]))) ∧
      (utf16Units ByteOrder.BigEndian [0, 0x41, 7]).length
        = ([0, 0x41, 7] : List Byte).length / 2 ∧
      (stringOfRunes (utf16Decode
          (utf16Units ByteOrder.BigEndian [0, 0x41, 7] ++ [0xFFFD]))).data.getLast?
        = some (Char.ofNat 0xFFFD) ∧
      ∀ x : Byte, utf16BytesToString (([0, 0x41, 7] : List Byte).dropLast ++ [x])
          ByteOrder.BigEndian
        = utf16BytesToString [0, 0x41, 7] ByteOrder.BigEndian) :=
  ⟨by decide, utf16BytesToString_odd_length [0, 0x41, 7] ByteOrder.BigEndian (by decide)⟩

/-! ### PrintVHDHeaders -/

/-- A read of n bytes from a file that holds at least n unread bytes returns exactly the
next n bytes. -/
theorem fileRead_of_le (f : List Byte) (n : ℕ) (hn : 0 < n) (h : n ≤ f.length) :
    fileRead f n = some (f.take n, f.drop n) := by
  have hne : f ≠ [] := by
    intro h0; rw [h0] at h; simp at h; omega
  have hl : (f.take n).length = n := by rw [List.length_take]; omega
  rw [fileRead, if_neg hne, hl, Nat.sub_self]
  simp

/-- The header reader returns the decoded header when the disk-type byte is at most 6. -/
theorem readVHDHeader_of_type_le (buf : List Byte)
    (h : ((decodeVHDHeader buf).DiskType.get 3 (by decide)).val ≤ 6) :
    readVHDHeader buf = some (decodeVHDHeader buf) := by
  unfold readVHDHeader
  have hl := (decodeVHDHeader buf).DiskTypeStr_eq_lookup
  have hs : ((decodeVHDHeader buf).DiskTypeStr).isSome := by
    rw [hl, Option.isSome_iff_ne_none, Ne, diskTypeNames_get?_eq_none]
    omega
  obtain ⟨s, hs⟩ := Option.isSome_iff_exists.mp hs
  simp only [hs]

/-- The extra-header reader on a file with at least 1024 unread bytes decodes the next 1024
bytes and leaves the rest unread. -/
theorem readVHDExtraHeader_of_le (f : List Byte) (h : 1024 ≤ f.length) :
    readVHDExtraHeader f = some (decodeVHDExtraHeader (f.take 1024), f.drop 1024) := by
  unfold readVHDExtraHeader
  rw [fileRead_of_le f 1024 (by norm_num) h]
  simp only [utf16BytesToString_eq]

/-- Claim C15: on a stream of at least 1536 bytes, PrintVHDHeaders decodes the first 512
bytes; when the decoded disk-type byte is 0 or 2 it reads no extra header and leaves
everything after byte 511 unread (512 bytes consumed); when the byte is 3 or 4 it also
decodes bytes 512..1535 as the extra header and leaves everything after byte 1535 unread
(1536 bytes consumed). -/
theorem PrintVHDHeaders_consumption (f : List Byte) (hlen : 1536 ≤ f.length) :
    ((((decodeVHDHeader (f.take 512)).DiskType.get 3 (by decide)).val = 0 ∨
        ((decodeVHDHeader (f.take 512)).DiskType.get 3 (by decide)).val = 2) →
      PrintVHDHeaders f = some (decodeVHDHeader (f.take 512), none, f.drop 512)) ∧
    ((((decodeVHDHeader (f.take 512)).DiskType.get 3 (by decide)).val = 3 ∨
        ((decodeVHDHeader (f.take 512)).DiskType.get 3 (by decide)).val = 4) →
      PrintVHDHeaders f = some (decodeVHDHeader (f.take 512),
        some (decodeVHDExtraHeader (bytesAt f 512 1024)), f.drop 1536)) ∧
    f.length - (f.drop 512).length = 512 ∧ f.length - (f.drop 1536).length = 1536 := by
  have hread : fileRead f 512 = some (f.take 512, f.drop 512) :=
    fileRead_of_le f 512 (by norm_num) (by omega)
  refine ⟨?_, ?_, ?_, ?_⟩
  · intro hb
    unfold PrintVHDHeaders
    rw [hread]
    simp only [readVHDHeader_of_type_le (f.take 512) (by omega)]
    rw [if_neg (by omega)]
  · intro hb
    unfold PrintVHDHeaders
    rw [hread]
    simp only [readVHDHeader_of_type_le (f.take 512) (by omega)]
    rw [if_pos hb, readVHDExtraHeader_of_le (f.drop 512) (by rw [List.length_drop]; omega)]
    simp only [bytesAt, List.drop_drop]
  · rw [List.length_drop]; omega
  · rw [List.length_drop]; omega

/-- Witness of claim C15: the stream made of a zero header and a zero extra header, whose
disk-type byte is 0. -/
theorem PrintVHDHeaders_consumption_witness :
    1536 ≤ (VHDHeader.zero.encode ++ VHDExtraHeader.zero.encode).length ∧
    PrintVHDHeaders (VHDHeader.zero.encode ++ VHDExtraHeader.zero.encode)
      = some (decodeVHDHeader ((VHDHeader.zero.encode ++ VHDExtraHeader.zero.encode).take 512),
          none, (VHDHeader.zero.encode ++ VHDExtraHeader.zero.encode).drop 512) :=
  ⟨by rw [List.length_append, VHDHeader.length_encode, VHDExtraHeader.length_encode_extra],
    (PrintVHDHeaders_consumption (VHDHeader.zero.encode ++ VHDExtraHeader.zero.encode)
      (by rw [List.length_append, VHDHeader.length_encode,
        VHDExtraHeader.length_encode_extra])).1
      (Or.inl (by
        rw [List.take_left' (VHDHeader.length_encode _), decodeVHDHeader_encode]; rfl))⟩

/-! ### CreateSparseVHD: fixed fields, BAT and timestamp -/

/-- The bytes of a middle part, read at its offset. -/
theorem bytesAt_mid (pre mid post : List Byte) (off n : ℕ) (hoff : pre.length = off)
    (hn : mid.length = n) : bytesAt (pre ++ (mid ++ post)) off n = mid := by
  unfold bytesAt
  rw [List.drop_left' hoff, List.take_left' hn]

/-- Reading past a first part of known length is reading in what follows it. -/
theorem bytesAt_append_right (H X : List Byte) (a k n : ℕ) (hH : H.length = a) :
    bytesAt (H ++ X) (a + k) n = bytesAt X k n := by
  unfold bytesAt
  rw [← List.drop_drop, List.drop_left' hH]

/-- The primary header of CreateSparseVHD, with its constant fields and its timestamp. -/
theorem CreateSparseVHD.header_eq_fields (size : ℕ) (now : ℤ) (uuidBytes : ByteArr 16) :
    ∃ h0 : VHDHeader, h0.Checksum = ByteArr.zero 4 ∧
      h0.Cookie.val = [0x63, 0x6f, 0x6e, 0x65, 0x63, 0x74, 0x69, 0x78] ∧
      h0.DataOffset.val = [0, 0, 0, 0, 0, 0, 2, 0] ∧
      h0.DiskType.val = [0, 0, 0, 3] ∧
      h0.Timestamp = be32Arr (uint32OfInt (now - 946684800)) ∧
      CreateSparseVHD.header size now uuidBytes = h0.addChecksum := by
  unfold CreateSparseVHD.header
  simp only [hexToField_cookie, hexToField_features, hexToField_fileFormatVersion,
    hexToField_dataOffset, hexToField_creatorApplication, hexToField_creatorHostOS,
    hexToField_diskType, hexToField_checksum, some_bind_eq, copyInto_beBytes64,
    copyInto_beBytes32]
  exact ⟨_, rfl, rfl, rfl, rfl, rfl, rfl⟩

/-- The sparse header of CreateSparseVHD, with its constant fields. -/
theorem CreateSparseVHD.header2_eq_fields (size : ℕ) :
    ∃ e0 : VHDExtraHeader, e0.Checksum = ByteArr.zero 4 ∧
      e0.Cookie.val = [0x63, 0x78, 0x73, 0x70, 0x61, 0x72, 0x73, 0x65] ∧
      e0.DataOffset.val = [255, 255, 255, 255, 255, 255, 255, 255] ∧
      e0.TableOffset = be64Arr 1536 ∧ e0.BlockSize = be32Arr 2097152 ∧
      CreateSparseVHD.header2 size = e0.addChecksum := by
  unfold CreateSparseVHD.header2
  simp only [hexToField_dynCookie, hexToField_dynDataOffset, hexToField_headerVersion,
    some_bind_eq, copyInto_beBytes32, copyInto_beBytes64]
  exact ⟨_, rfl, rfl, rfl, rfl, rfl, rfl⟩

/-- The stream written by CreateSparseVHD from the two structures. -/
theorem CreateSparseVHD_of_headers (size : ℕ) (now : ℤ) (uuidBytes : ByteArr 16)
    (hdr : VHDHeader) (ext : VHDExtraHeader)
    (hh : CreateSparseVHD.header size now uuidBytes = some hdr)
    (he : CreateSparseVHD.header2 size = some ext) :
    CreateSparseVHD size now uuidBytes = some
      (hdr.encode ++ (ext.encode
        ++ (writeLoop (List.replicate 4 0xff) (uint32 (size / VHD_BLOCK_SIZE))
        ++ (writeLoop (List.replicate 4 0x0)
              (uint32 (1536 + 2 ^ 32 - uint32 (size / VHD_BLOCK_SIZE)))
        ++ hdr.encode)))) := by
  unfold CreateSparseVHD
  rw [hh, he]
  simp only [some_bind_eq, List.nil_append, List.append_assoc]
  rfl

/-- Position of the fields Cookie, DataOffset and DiskType in a serialized VHDHeader that is
followed by other bytes. -/
theorem VHDHeader.bytesAt_encode (h : VHDHeader) (rest : List Byte) :
    bytesAt (h.encode ++ rest) 0 8 = h.Cookie.val ∧
      bytesAt (h.encode ++ rest) 16 8 = h.DataOffset.val ∧
      bytesAt (h.encode ++ rest) 24 4 = h.Timestamp.val ∧
      bytesAt (h.encode ++ rest) 60 4 = h.DiskType.val := by
  refine ⟨?_, ?_, ?_, ?_⟩
  · have e : h.encode ++ rest = [] ++ (h.Cookie.val ++ (h.Features.val ++
        (h.FileFormatVersion.val ++ (h.DataOffset.val ++ (h.Timestamp.val ++
        (h.CreatorApplication.val ++ (h.CreatorVersion.val ++ (h.CreatorHostOS.val ++
        (h.OriginalSize.val ++ (h.CurrentSize.val ++ (h.DiskGeometry.val ++
        (h.DiskType.val ++ (h.Checksum.val ++ (h.UniqueId.val ++ (h.SavedState.val ++
        (h.Reserved.val ++ rest)))))))))))))))) := by
      simp only [VHDHeader.encode, List.append_assoc, List.nil_append]
    rw [e]
    exact bytesAt_mid _ _ _ 0 8 rfl h.Cookie.property
  · have e : h.encode ++ rest = (h.Cookie.val ++ (h.Features.val ++ h.FileFormatVersion.val))
        ++ (h.DataOffset.val ++ (h.Timestamp.val ++
        (h.CreatorApplication.val ++ (h.CreatorVersion.val ++ (h.CreatorHostOS.val ++
        (h.OriginalSize.val ++ (h.CurrentSize.val ++ (h.DiskGeometry.val ++
        (h.DiskType.val ++ (h.Checksum.val ++ (h.UniqueId.val ++ (h.SavedState.val ++
        (h.Reserved.val ++ rest))))))))))))) := by
      simp only [VHDHeader.encode, List.append_assoc]
    rw [e]
    exact bytesAt_mid _ _ _ 16 8
      (by simp only [List.length_append, ByteArr.length_val]) h.DataOffset.property
  · have e : h.encode ++ rest = (h.Cookie.val ++ (h.Features.val ++ (h.FileFormatVersion.val
        ++ h.DataOffset.val))) ++ (h.Timestamp.val ++
        (h.CreatorApplication.val ++ (h.CreatorVersion.val ++ (h.CreatorHostOS.val ++
        (h.OriginalSize.val ++ (h.CurrentSize.val ++ (h.DiskGeometry.val ++
        (h.DiskType.val ++ (h.Checksum.val ++ (h.UniqueId.val ++ (h.SavedState.val ++
        (h.Reserved.val ++ rest)))))))))))) := by
      simp only [VHDHeader.encode, List.append_assoc]
    rw [e]
    exact bytesAt_mid _ _ _ 24 4
      (by simp only [List.length_append, ByteArr.length_val]) h.Timestamp.property
  · have e : h.encode ++ rest = (h.Cookie.val ++ (h.Features.val ++ (h.FileFormatVersion.val
        ++ (h.DataOffset.val ++ (h.Timestamp.val ++
        (h.CreatorApplication.val ++ (h.CreatorVersion.val ++ (h.CreatorHostOS.val ++
        (h.OriginalSize.val ++ (h.CurrentSize.val ++ h.DiskGeometry.val))))))))))
        ++ (h.DiskType.val ++ (h.Checksum.val ++ (h.UniqueId.val ++ (h.SavedState.val ++
        (h.Reserved.val ++ rest))))) := by
      simp only [VHDHeader.encode, List.append_assoc]
    rw [e]
    exact bytesAt_mid _ _ _ 60 4
      (by simp only [List.length_append, ByteArr.length_val]) h.DiskType.property

/-- Position of the fields Cookie, DataOffset, TableOffset and BlockSize in a serialized
VHDExtraHeader that is followed by other bytes. -/
theorem VHDExtraHeader.bytesAt_encode_extra (e : VHDExtraHeader) (rest : List Byte) :
    bytesAt (e.encode ++ rest) 0 8 = e.Cookie.val ∧
      bytesAt (e.encode ++ rest) 8 8 = e.DataOffset.val ∧
      bytesAt (e.encode ++ rest) 16 8 = e.TableOffset.val ∧
      bytesAt (e.encode ++ rest) 32 4 = e.BlockSize.val := by
  have full : e.encode ++ rest = e.Cookie.val ++ (e.DataOffset.val ++ (e.TableOffset.val ++
      (e.HeaderVersion.val ++ (e.MaxTableEntries.val ++ (e.BlockSize.val ++
      (e.Checksum.val ++ (e.ParentUUID.val ++
        (e.ParentTimestamp.val ++ (e.Reserved.val ++ (e.ParentUnicodeName.val ++
        (e.ParentLocatorEntry1.val ++ (e.ParentLocatorEntry2.val ++
        (e.ParentLocatorEntry3.val ++ (e.ParentLocatorEntry4.val ++
        (e.ParentLocatorEntry5.val ++ (e.ParentLocatorEntry6.val ++
        (e.ParentLocatorEntry7.val ++ (e.ParentLocatorEntry8.val ++
        (e.Reserved2.val ++ rest))))))))))))))))))) := by
    simp only [VHDExtraHeader.encode, List.append_assoc]
  rw [full]
  refine ⟨?_, ?_, ?_, ?_⟩
  · exact bytesAt_mid [] _ _ 0 8 rfl e.Cookie.property
  · exact bytesAt_mid e.Cookie.val _ _ 8 8 e.Cookie.property e.DataOffset.property
  · rw [← List.append_assoc e.Cookie.val]
    exact bytesAt_mid _ _ _ 16 8
      (by simp only [List.length_append, ByteArr.length_val]) e.TableOffset.property
  · rw [← List.append_assoc e.HeaderVersion.val, ← List.append_assoc e.TableOffset.val,
      ← List.append_assoc e.DataOffset.val, ← List.append_assoc e.Cookie.val]
    exact bytesAt_mid _ _ _ 32 4
      (by simp only [List.length_append, ByteArr.length_val]) e.BlockSize.property

/-- Claim C12: for every size, clock value and random bytes, the stream written by
CreateSparseVHD has bytes 0..7 = "conectix", header DataOffset (bytes 16..23) = 512,
DiskType (bytes 60..63) = 00 00 00 03, bytes 512..519 = "cxsparse", bytes 520..527 all FF,
TableOffset (bytes 528..535) = 1536 and BlockSize (bytes 544..547) = 2097152, big-endian;
the stream is the header hdr, the extra header ext, the BAT and the header again, with hdr
of DataOffset bytes and hdr with ext of TableOffset bytes, so the extra header is written
at offset DataOffset and the BAT starts at offset TableOffset. -/
theorem CreateSparseVHD_fixed_fields (size : ℕ) (now : ℤ) (uuidBytes : ByteArr 16) :
    ∃ (out : List Byte) (hdr : VHDHeader) (ext : VHDExtraHeader) (bat : List Byte),
      CreateSparseVHD size now uuidBytes = some out ∧
      bytesAt out 0 8 = [0x63, 0x6f, 0x6e, 0x65, 0x63, 0x74, 0x69, 0x78] ∧
      beValue (bytesAt out 16 8) = 512 ∧
      bytesAt out 60 4 = [0, 0, 0, 3] ∧
      bytesAt out 512 8 = [0x63, 0x78, 0x73, 0x70, 0x61, 0x72, 0x73, 0x65] ∧
      bytesAt out 520 8 = [255, 255, 255, 255, 255, 255, 255, 255] ∧
      beValue (bytesAt out 528 8) = 1536 ∧
      beValue (bytesAt out 544 4) = 2097152 ∧
      out = hdr.encode ++ (ext.encode ++ (bat ++ hdr.encode)) ∧
      bat = writeLoop (List.replicate 4 0xff) (uint32 (size / VHD_BLOCK_SIZE))
        ++ writeLoop (List.replicate 4 0x0)
            (uint32 (1536 + 2 ^ 32 - uint32 (size / VHD_BLOCK_SIZE))) ∧
      hdr.encode.length = beValue (bytesAt out 16 8) ∧
      hdr.encode.length + ext.encode.length = beValue (bytesAt out 528 8) := by
  obtain ⟨h0, -, hcookie, hdoff, hdt, -, hh⟩ :=
    CreateSparseVHD.header_eq_fields size now uuidBytes
  obtain ⟨e0, -, ecookie, edoff, etoff, ebs, he⟩ := CreateSparseVHD.header2_eq_fields size
  rw [h0.addChecksum_eq] at hh
  rw [e0.addChecksum_eq_extra] at he
  have hout := CreateSparseVHD_of_headers size now uuidBytes _ _ hh he
  generalize hhdr : ({ h0 with Checksum := be32Arr (complement32 (byteSum h0.encode)) }
    : VHDHeader) = hdr at hout
  generalize hext : ({ e0 with Checksum := be32Arr (complement32 (byteSum e0.encode)) }
    : VHDExtraHeader) = ext at hout
  have c1 : hdr.Cookie = h0.Cookie := by rw [← hhdr]
  have c2 : hdr.DataOffset = h0.DataOffset := by rw [← hhdr]
  have c3 : hdr.DiskType = h0.DiskType := by rw [← hhdr]
  have d1 : ext.Cookie = e0.Cookie := by rw [← hext]
  have d2 : ext.DataOffset = e0.DataOffset := by rw [← hext]
  have d3 : ext.TableOffset = e0.TableOffset := by rw [← hext]
  have d4 : ext.BlockSize = e0.BlockSize := by rw [← hext]
  have hH := hdr.bytesAt_encode (ext.encode
    ++ (writeLoop (List.replicate 4 0xff) (uint32 (size / VHD_BLOCK_SIZE))
    ++ (writeLoop (List.replicate 4 0x0)
          (uint32 (1536 + 2 ^ 32 - uint32 (size / VHD_BLOCK_SIZE))) ++ hdr.encode)))
  have hE := ext.bytesAt_encode_extra
    (writeLoop (List.replicate 4 0xff) (uint32 (size / VHD_BLOCK_SIZE))
    ++ (writeLoop (List.replicate 4 0x0)
          (uint32 (1536 + 2 ^ 32 - uint32 (size / VHD_BLOCK_SIZE))) ++ hdr.encode))
  have s0 := bytesAt_append_right hdr.encode (ext.encode
    ++ (writeLoop (List.replicate 4 0xff) (uint32 (size / VHD_BLOCK_SIZE))
    ++ (writeLoop (List.replicate 4 0x0)
          (uint32 (1536 + 2 ^ 32 - uint32 (size / VHD_BLOCK_SIZE))) ++ hdr.encode)))
    512 0 8 hdr.length_encode
  have s8 := bytesAt_append_right hdr.encode (ext.encode
    ++ (writeLoop (List.replicate 4 0xff) (uint32 (size / VHD_BLOCK_SIZE))
    ++ (writeLoop (List.replicate 4 0x0)
          (uint32 (1536 + 2 ^ 32 - uint32 (size / VHD_BLOCK_SIZE))) ++ hdr.encode)))
    512 8 8 hdr.length_encode
  have s16 := bytesAt_append_right hdr.encode (ext.encode
    ++ (writeLoop (List.replicate 4 0xff) (uint32 (size / VHD_BLOCK_SIZE))
    ++ (writeLoop (List.replicate 4 0x0)
          (uint32 (1536 + 2 ^ 32 - uint32 (size / VHD_BLOCK_SIZE))) ++ hdr.encode)))
    512 16 8 hdr.length_encode
  have s32 := bytesAt_append_right hdr.encode (ext.encode
    ++ (writeLoop (List.replicate 4 0xff) (uint32 (size / VHD_BLOCK_SIZE))
    ++ (writeLoop (List.replicate 4 0x0)
          (uint32 (1536 + 2 ^ 32 - uint32 (size / VHD_BLOCK_SIZE))) ++ hdr.encode)))
    512 32 4 hdr.length_encode
  have v512 : beValue h0.DataOffset.val = 512 := by rw [hdoff]; rfl
  have v1536 : beValue e0.TableOffset.val = 1536 := by rw [etoff]; rfl
  have vbs : beValue e0.BlockSize.val = 2097152 := by rw [ebs]; rfl
  refine ⟨_, hdr, ext,
    writeLoop (List.replicate 4 0xff) (uint32 (size / VHD_BLOCK_SIZE))
      ++ writeLoop (List.replicate 4 0x0)
          (uint32 (1536 + 2 ^ 32 - uint32 (size / VHD_BLOCK_SIZE))),
    hout, ?_, ?_, ?_, ?_, ?_, ?_, ?_, ?_, rfl, ?_, ?_⟩
  · rw [hH.1, c1, hcookie]
  · rw [hH.2.1, c2, v512]
  · rw [hH.2.2.2, c3, hdt]
  · rw [show (512 : ℕ) = 512 + 0 from rfl, s0, hE.1, d1, ecookie]
  · rw [show (520 : ℕ) = 512 + 8 from rfl, s8, hE.2.1, d2, edoff]
  · rw [show (528 : ℕ) = 512 + 16 from rfl, s16, hE.2.2.1, d3, v1536]
  · rw [show (544 : ℕ) = 512 + 32 from rfl, s32, hE.2.2.2, d4, vbs]
  · rw [List.append_assoc]
  · rw [hH.2.1, c2, v512, hdr.length_encode]
  · rw [show (528 : ℕ) = 512 + 16 from rfl, s16, hE.2.2.1, d3, v1536, hdr.length_encode,
      ext.length_encode_extra]

/-- A write loop writes its chunk n times. -/
theorem writeLoop_eq_flatten (chunk : List Byte) (n : ℕ) :
    writeLoop chunk n = (List.replicate n chunk).flatten := by
  induction n with
  | zero => rfl
  | succ n ih => rw [writeLoop, ih, List.replicate_succ, List.flatten_cons]

/-- Claim C11: for every size S with n = floor(S / 2 MiB) at most 1536, the stream written
by CreateSparseVHD has 7680 + 512 bytes and its bytes 1536..7679, the BAT, are n entries
FF FF FF FF followed by 1536 - n entries 00 00 00 00. -/
theorem CreateSparseVHD_bat (size : ℕ) (now : ℤ) (uuidBytes : ByteArr 16)
    (hn : size / VHD_BLOCK_SIZE ≤ 1536) :
    ∃ out : List Byte, CreateSparseVHD size now uuidBytes = some out ∧
      out.length = 7680 + 512 ∧
      bytesAt out 1536 (4 * 1536)
        = (List.replicate (size / VHD_BLOCK_SIZE) ([255, 255, 255, 255] : List Byte)
            ++ List.replicate (1536 - size / VHD_BLOCK_SIZE) [0, 0, 0, 0]).flatten := by
  obtain ⟨h0, e0, -, -, -, -, -, hout⟩ := CreateSparseVHD_eq size now uuidBytes
  have hu : uint32 (size / VHD_BLOCK_SIZE) = size / VHD_BLOCK_SIZE :=
    Nat.mod_eq_of_lt (by omega)
  have hpad : uint32 (1536 + 2 ^ 32 - size / VHD_BLOCK_SIZE) = 1536 - size / VHD_BLOCK_SIZE := by
    unfold uint32; omega
  rw [hu, hpad, writeLoop_eq_flatten, writeLoop_eq_flatten] at hout
  have hlen : ((List.replicate (size / VHD_BLOCK_SIZE) (List.replicate 4 (0xff : Byte))).flatten
      ++ (List.replicate (1536 - size / VHD_BLOCK_SIZE)
          (List.replicate 4 (0x0 : Byte))).flatten).length = 4 * 1536 := by
    rw [← writeLoop_eq_flatten, ← writeLoop_eq_flatten, List.length_append, length_writeLoop,
      length_writeLoop, List.length_replicate, List.length_replicate]
    omega
  refine ⟨_, hout, ?_, ?_⟩
  · rw [← List.append_assoc (List.flatten _), List.length_append, List.length_append,
      List.length_append, hlen, VHDHeader.length_encode, VHDExtraHeader.length_encode_extra]
  · rw [← List.append_assoc (List.flatten _), ← List.append_assoc (VHDHeader.encode _),
      bytesAt_mid _ _ _ 1536 (4 * 1536)
        (by rw [List.length_append, VHDHeader.length_encode,
          VHDExtraHeader.length_encode_extra]) hlen,
      List.flatten_append]
    rfl

/-- Witness of claim C11: a disk of 4 MiB has entries 0..1 equal to FF FF FF FF and entries
2..1535 equal to 00 00 00 00. -/
theorem CreateSparseVHD_bat_witness :
    4194304 / VHD_BLOCK_SIZE ≤ 1536 ∧
    ∃ out : List Byte, CreateSparseVHD 4194304 0 (ByteArr.zero 16) = some out ∧
      out.length = 7680 + 512 ∧
      bytesAt out 1536 (4 * 1536)
        = (List.replicate 2 ([255, 255, 255, 255] : List Byte)
            ++ List.replicate 1534 [0, 0, 0, 0]).flatten :=
  ⟨by decide, CreateSparseVHD_bat 4194304 0 (ByteArr.zero 16) (by decide)⟩

/-- Claim C19: the header built by CreateSparseVHD at the clock value n (and written as the
first 512 bytes of the stream) stores the timestamp (n - 946684800) mod 2^32 in bytes
24..27, and TimestampTime on that header returns n mod 2^32, which is n itself when
0 ≤ n < 2^32. -/
theorem CreateSparseVHD_timestamp_roundtrip (size : ℕ) (n : ℤ) (uuidBytes : ByteArr 16) :
    ∃ (out : List Byte) (hdr : VHDHeader),
      CreateSparseVHD size n uuidBytes = some out ∧
      CreateSparseVHD.header size n uuidBytes = some hdr ∧
      decodeVHDHeader (out.take 512) = hdr ∧
      bytesAt out 24 4 = hdr.Timestamp.val ∧
      beValue hdr.Timestamp.val = ((n - 946684800) % 2 ^ 32).toNat ∧
      hdr.TimestampTime = n % 2 ^ 32 ∧
      hdr.TimestampTime = if 0 ≤ n ∧ n < 2 ^ 32 then n else n % 2 ^ 32 := by
  obtain ⟨h0, -, -, -, -, hts, hh⟩ := CreateSparseVHD.header_eq_fields size n uuidBytes
  obtain ⟨e0, -, -, he⟩ := CreateSparseVHD.header2_eq size
  rw [h0.addChecksum_eq] at hh
  rw [e0.addChecksum_eq_extra] at he
  have hout := CreateSparseVHD_of_headers size n uuidBytes _ _ hh he
  generalize hhdr : ({ h0 with Checksum := be32Arr (complement32 (byteSum h0.encode)) }
    : VHDHeader) = hdr at hout hh
  have c1 : hdr.Timestamp = h0.Timestamp := by rw [← hhdr]
  have hlt : uint32OfInt (n - 946684800) < 2 ^ 32 := by unfold uint32OfInt; omega
  have hv : beValue hdr.Timestamp.val = ((n - 946684800) % 2 ^ 32).toNat := by
    rw [c1, hts]
    exact beValue_beBytes32 _ hlt
  have ht : hdr.TimestampTime = n % 2 ^ 32 := by
    rw [VHDHeader.TimestampTime_eq, hv]
    omega
  refine ⟨_, hdr, hout, hh, ?_, ?_, hv, ht, ?_⟩
  · rw [List.take_left' hdr.length_encode, decodeVHDHeader_encode]
  · exact (hdr.bytesAt_encode _).2.2.1
  · rw [ht]
    split_ifs with h
    · omega
    · rfl

/-! ### calculateCHS: capacity lost -/

/-- Claim C18: for every total sector count ts ≤ 65535 * 16 * 255, the geometry [C, H, S]
returned by calculateCHS loses less than one cylinder: ts - C * H * S ≤ H * S - 1, that is
ts < C * H * S + H * S. -/
theorem calculateCHS_loss_lt_cylinder (ts : ℕ) (hts : ts ≤ 65535 * 16 * 255) :
    ∃ c h s : ℕ, calculateCHS ts = [c, h, s] ∧
      ts - c * h * s ≤ h * s - 1 ∧ ts < c * h * s + h * s := by
  refine ⟨_, _, _, calculateCHS_eq_chsInt ts, ?_⟩
  rw [min_eq_left hts]
  have hc := chsInt_cth ts
  have hh := chsInt_heads ts
  have hs := chsInt_spt ts
  generalize chsInt ts = r at hc hh hs ⊢
  have hs0 : 0 < r.1 := by omega
  have hh0 : 0 < r.2.1 := by omega
  have h1 : ts < r.1 * (ts / r.1 + 1) := Nat.lt_mul_div_succ ts hs0
  have h2 : r.2.2 < r.2.1 * (r.2.2 / r.2.1 + 1) := Nat.lt_mul_div_succ r.2.2 hh0
  rw [← hc] at h1
  have h3 : ts < r.2.2 / r.2.1 * r.2.1 * r.1 + r.2.1 * r.1 := by
    have h4 : r.2.2 + 1 ≤ r.2.1 * (r.2.2 / r.2.1 + 1) := h2
    calc ts < r.1 * (r.2.2 + 1) := h1
      _ ≤ r.1 * (r.2.1 * (r.2.2 / r.2.1 + 1)) := Nat.mul_le_mul_left _ h4
      _ = r.2.2 / r.2.1 * r.2.1 * r.1 + r.2.1 * r.1 := by ring
  have hpos : 0 < r.2.1 * r.1 := Nat.mul_pos hh0 hs0
  exact ⟨by omega, h3⟩

/-- Witness of claim C18: a disk of 100 MiB, 204800 sectors. -/
theorem calculateCHS_loss_lt_cylinder_witness :
    204800 ≤ 65535 * 16 * 255 ∧
    ∃ c h s : ℕ, calculateCHS 204800 = [c, h, s] ∧
      204800 - c * h * s ≤ h * s - 1 ∧ 204800 < c * h * s + h * s :=
  ⟨by decide, calculateCHS_loss_lt_cylinder 204800 (by decide)⟩
